import Mathlib

/-!
Verification of the streaming XML deserialization engine of the `rsxiv`
crate, against a shallow embedding of its source.

The embedding models the `quick_xml` token stream as a list of tokens
(`Tok`), the wrapper `xml::Reader` as that list plus the single-slot
pushback buffer (`Reader`), and each Rust function of `src/xml.rs`,
`src/response/xml.rs`, `src/de/de_impl.rs` and `src/id.rs` as a Lean
function over that state.  Machine integers (`u8`, `u16`, `u64`) are
modelled as `Nat` with explicit wraparound where the Rust code can wrap.

The crate root of the `response` module (defining `Pagination` and
`ResponseError`) is not part of the sources at hand; those two types are
modelled from the specification's data model and error taxonomy together
with the constructor uses visible in `response/xml.rs` and
`de/de_impl.rs`.
-/

namespace RsXiv

/-- Raw byte strings (`&[u8]` slices and decoded text payloads). -/
abbrev Bytes := List Nat

/-- ASCII bytes of a string literal (used for the fixed tag names and URL
literals that the source spells as byte-string literals). -/
def strBytes (s : String) : Bytes := s.data.map Char.toNat

/-- Model of `<[u8]>::strip_prefix`. -/
def stripBytes (p l : Bytes) : Option Bytes :=
  if p.isPrefixOf l then some (l.drop p.length) else none

/-! ## The identifier module (`src/id.rs`, `src/id/parse.rs`, `src/id/archive.rs`) -/

/-- The error type of the identifier parser (`id::IdError`). -/
inductive IdError where
  | dateOutOfRange
  | numberOutOfRange
  | invalidDate
  | invalidNumber
  | invalidVersion
  | invalidArchive
deriving Repr, DecidableEq

namespace Id

/-- The archives of old-style identifiers (`id::Archive`). -/
inductive Archive where
  | accPhys | adapOrg | algGeom | aoSci | astroPh | atomPh | bayesAn | chaoDyn | chemPh | cmpLg
  | compGas | condMat | cs | dgGa | functAn | grQc | hepEx | hepLat | hepPh | hepTh
  | math | mathPh | mtrlTh | nlin | nuclEx | nuclTh | pattSol | physics | plasmPh | qAlg
  | qBio | quantPh | solvInt | suprCon
deriving Repr, DecidableEq

/-- The `#[repr(u8)]` discriminant of each `Archive` variant. -/
def Archive.toNat : Archive → Nat
  | .accPhys => 1
  | .adapOrg => 2
  | .algGeom => 3
  | .aoSci => 4
  | .astroPh => 5
  | .atomPh => 6
  | .bayesAn => 7
  | .chaoDyn => 8
  | .chemPh => 9
  | .cmpLg => 10
  | .compGas => 11
  | .condMat => 12
  | .cs => 13
  | .dgGa => 14
  | .functAn => 15
  | .grQc => 16
  | .hepEx => 17
  | .hepLat => 18
  | .hepPh => 19
  | .hepTh => 20
  | .math => 21
  | .mathPh => 22
  | .mtrlTh => 23
  | .nlin => 24
  | .nuclEx => 25
  | .nuclTh => 26
  | .pattSol => 27
  | .physics => 28
  | .plasmPh => 29
  | .qAlg => 30
  | .qBio => 31
  | .quantPh => 32
  | .solvInt => 33
  | .suprCon => 34

/-- The match table of `archive::strip_prefix`, one row per match arm in
source order (note `math-ph` precedes `math`, as in the source). -/
def archiveTable : List (String × Archive) :=
  [("acc-phys", .accPhys), ("adap-org", .adapOrg), ("alg-geom", .algGeom),
   ("ao-sci", .aoSci), ("astro-ph", .astroPh), ("atom-ph", .atomPh),
   ("bayes-an", .bayesAn), ("chao-dyn", .chaoDyn), ("chem-ph", .chemPh),
   ("cmp-lg", .cmpLg), ("comp-gas", .compGas), ("cond-mat", .condMat),
   ("cs", .cs), ("dg-ga", .dgGa), ("funct-an", .functAn), ("gr-qc", .grQc),
   ("hep-ex", .hepEx), ("hep-lat", .hepLat), ("hep-ph", .hepPh),
   ("hep-th", .hepTh), ("math-ph", .mathPh), ("math", .math),
   ("mtrl-th", .mtrlTh), ("nlin", .nlin), ("nucl-ex", .nuclEx),
   ("nucl-th", .nuclTh), ("patt-sol", .pattSol), ("physics", .physics),
   ("plasm-ph", .plasmPh), ("q-alg", .qAlg), ("q-bio", .qBio),
   ("quant-ph", .quantPh), ("solv-int", .solvInt), ("supr-con", .suprCon)]

/-- Model of `archive::strip_prefix` (re-exported by `id.rs` as
`strip_archive_prefix_bytes`): try the archive names in source arm order
and strip the first one that is a byte prefix of the input. -/
def stripArchive (s : Bytes) : Option (Archive × Bytes) :=
  archiveTable.findSome? fun p =>
    let pb := strBytes p.1
    if pb.isPrefixOf s then some (p.2, s.drop pb.length) else none

/-- ASCII digit test (`b'0'..=b'9'` in the Rust slice patterns). -/
def dig (c : Nat) : Bool := 48 ≤ c && c ≤ 57

/-- ASCII nonzero digit test (`b'1'..=b'9'`). -/
def nzdig (c : Nat) : Bool := 49 ≤ c && c ≤ 57

/-- Model of `parse::version`: an unpadded decimal number with nonzero
leading digit, at most five digits, fitting in a `u16`. -/
def versionParse : Bytes → Except IdError Nat
  | [d1] =>
    if nzdig d1 then .ok (d1 - 48) else .error .invalidVersion
  | [d2, d1] =>
    if nzdig d2 && dig d1 then .ok (10 * (d2 - 48) + (d1 - 48))
    else .error .invalidVersion
  | [d3, d2, d1] =>
    if nzdig d3 && dig d2 && dig d1 then
      .ok (100 * (d3 - 48) + 10 * (d2 - 48) + (d1 - 48))
    else .error .invalidVersion
  | [d4, d3, d2, d1] =>
    if nzdig d4 && dig d3 && dig d2 && dig d1 then
      .ok (1000 * (d4 - 48) + 100 * (d3 - 48) + 10 * (d2 - 48) + (d1 - 48))
    else .error .invalidVersion
  | [d5, d4, d3, d2, d1] =>
    if nzdig d5 && dig d4 && dig d3 && dig d2 && dig d1 then
      let v := 10000 * (d5 - 48) + 1000 * (d4 - 48) + 100 * (d3 - 48) +
        10 * (d2 - 48) + (d1 - 48)
      if 65535 < v then .error .invalidVersion else .ok v
    else .error .invalidVersion
  | _ => .error .invalidVersion

/-- Shared tail handling of the `number_and_version_len_*` functions:
an optional `v`-prefixed version, or nothing; one extra digit is
`NumberOutOfRange`, anything else `InvalidVersion`. -/
def numberTail (number : Nat) : Bytes → Except IdError (Nat × Nat)
  | 118 :: ver =>
    match versionParse ver with
    | .ok v => .ok (number, v)
    | .error e => .error e
  | [] => .ok (number, 0)
  | [d] => if dig d then .error .numberOutOfRange else .error .invalidVersion
  | _ => .error .invalidVersion

/-- Model of `parse::number_and_version_len_3`. -/
def numberAndVersionLen3 : Bytes → Except IdError (Nat × Nat)
  | b1 :: b2 :: b3 :: tail =>
    if dig b1 && dig b2 && dig b3 then
      let number := 100 * (b1 - 48) + 10 * (b2 - 48) + (b3 - 48)
      if number == 0 then .error .numberOutOfRange else numberTail number tail
    else .error .invalidNumber
  | _ => .error .invalidNumber

/-- Model of `parse::number_and_version_len_4`. -/
def numberAndVersionLen4 : Bytes → Except IdError (Nat × Nat)
  | b1 :: b2 :: b3 :: b4 :: tail =>
    if dig b1 && dig b2 && dig b3 && dig b4 then
      let number := 1000 * (b1 - 48) + 100 * (b2 - 48) + 10 * (b3 - 48) + (b4 - 48)
      if number == 0 then .error .numberOutOfRange else numberTail number tail
    else .error .invalidNumber
  | _ => .error .invalidNumber

/-- Model of `parse::number_and_version_len_5`. -/
def numberAndVersionLen5 : Bytes → Except IdError (Nat × Nat)
  | b1 :: b2 :: b3 :: b4 :: b5 :: tail =>
    if dig b1 && dig b2 && dig b3 && dig b4 && dig b5 then
      let number := 10000 * (b1 - 48) + 1000 * (b2 - 48) + 100 * (b3 - 48) +
        10 * (b4 - 48) + (b5 - 48)
      if number == 0 then .error .numberOutOfRange else numberTail number tail
    else .error .invalidNumber
  | _ => .error .invalidNumber

/-- The wrapping byte-to-value conversion `b.overflowing_sub(b'0').0`
performed on the month bytes. -/
def wrapSub48 (b : Nat) : Nat := (b + 256 - 48) % 256

/-- Model of `parse::date_new`, including the month condition exactly as
written in the source (`m1 == 0 && (1 <= m2 && m2 <= 9) || m1 == 1 && m1 <= 2`). -/
def dateNew (b1 b2 b3 b4 : Nat) : Except IdError (Nat × Nat) :=
  if dig b1 && dig b2 then
    let y1 := b1 - 48
    let y2 := b2 - 48
    let m1 := wrapSub48 b3
    let m2 := wrapSub48 b4
    if !((m1 == 0 && (1 ≤ m2 && m2 ≤ 9)) || (m1 == 1 && m1 ≤ 2)) then
      .error .invalidDate
    else
      let yse :=
        if y1 == 0 && (y2 ≤ 6 || (y2 == 7 && m1 == 0 && m2 ≤ 3)) then 100 + 9 + y2
        else 9 + 10 * y1 + y2
      .ok (yse, (10 * m1 + m2) % 256)
  else .error .invalidDate

/-- Model of `parse::date_old`. -/
def dateOld (b1 b2 b3 b4 : Nat) : Except IdError (Nat × Nat) :=
  if dig b1 && dig b2 then
    let y1 := b1 - 48
    let y2 := b2 - 48
    let m1 := wrapSub48 b3
    let m2 := wrapSub48 b4
    if !((m1 == 0 && (1 ≤ m2 && m2 ≤ 9)) || (m1 == 1 && m2 ≤ 2)) then
      .error .invalidDate
    else if !((y1 == 9 && (1 ≤ y2 && y2 ≤ 9)) || (y1 == 0 && y2 ≤ 7)) ||
        (y1 == 9 && y2 == 1 && m2 ≤ 7) || (y1 == 0 && y2 == 7 && 4 ≤ m2) then
      .error .dateOutOfRange
    else
      let yse := if y1 == 9 then y2 - 1 else y2 + 9
      .ok (yse, (10 * m1 + m2) % 256)
  else .error .invalidDate

/-- The result record of `parse::date_number`. -/
structure DateNumber where
  years_since_epoch : Nat
  month : Nat
  number : Nat
  ver : Nat
deriving Repr, DecidableEq

/-- Model of `parse::date_number`. -/
def dateNumber : Bytes → Except IdError DateNumber
  | b1 :: b2 :: b3 :: b4 :: tail =>
    match dateOld b1 b2 b3 b4 with
    | .error e => .error e
    | .ok (yse, month) =>
      match numberAndVersionLen3 tail with
      | .error e => .error e
      | .ok (number, ver) => .ok ⟨yse, month, number, ver⟩
  | _ => .error .invalidDate

/-- The compact identifier (`id::ArticleId`): a single `u64`. -/
structure ArticleId where
  raw : Nat
deriving Repr, DecidableEq

/-- Model of `ArticleId::new_unchecked`: pack the fields into the `u64`. -/
def ArticleId.newUnchecked (yse month : Nat) (archive : Option Archive)
    (number ver : Nat) : ArticleId :=
  let a := match archive with
    | some ar => ar.toNat
    | none => 0
  ⟨(yse <<< 56) ||| (month <<< 48) ||| (a <<< 40) ||| (number <<< 16) ||| ver⟩

/-- Model of `ArticleId::serialize`: expose the raw `u64`. -/
def ArticleId.serialize (a : ArticleId) : Nat := a.raw

/-- ASCII uppercase test (`b'A'..=b'Z'`). -/
def upper (c : Nat) : Bool := 65 ≤ c && c ≤ 90

/-- The old-style branch of `ArticleId::parse_bytes`: strip an archive
prefix, drop a `/` or a `.XX/` subject class, and parse the remaining
date, number and version. -/
def parseBytesArchive (b : Bytes) : Except IdError ArticleId :=
  match stripArchive b with
  | some (archive, tail) =>
    let dn := match tail with
      | 47 :: t => t
      | 46 :: c1 :: c2 :: 47 :: t =>
        if upper c1 && upper c2 then t else 46 :: c1 :: c2 :: 47 :: t
      | t => t
    match dateNumber dn with
    | .error e => .error e
    | .ok v => .ok (ArticleId.newUnchecked v.years_since_epoch v.month (some archive)
        v.number v.ver)
  | none => .error .invalidArchive

/-- Model of `ArticleId::parse_bytes`. -/
def ArticleId.parseBytes (b : Bytes) : Except IdError ArticleId :=
  match b with
  | y1 :: y2 :: m1 :: m2 :: 46 :: tail =>
    if dig y1 then
      match dateNew y1 y2 m1 m2 with
      | .error e => .error e
      | .ok (yse, month) =>
        match (if yse ≤ 23 then numberAndVersionLen4 tail else numberAndVersionLen5 tail) with
        | .error e => .error e
        | .ok (number, ver) => .ok (ArticleId.newUnchecked yse month none number ver)
    else parseBytesArchive (y1 :: y2 :: m1 :: m2 :: 46 :: tail)
  | _ => parseBytesArchive b

end Id

/-! ## The reader layer (`src/xml.rs`) -/

namespace Xml

/-- One event of the underlying `quick_xml` token stream.  The reduced
event set of `xml::Event` is `start`/`close`/`empty`; `text` stands for
every event kind that `Reader::read_inner` skips (text runs, processing
instructions, comments) but whose payload `read_text` collects. -/
inductive Tok where
  | start (name : String) (attrs : List (String × Bytes))
  | close (name : String)
  | empty (name : String) (attrs : List (String × Bytes))
  | text (payload : Bytes)
deriving Repr, DecidableEq

/-- Whether a token is one of the skipped (non-reduced) event kinds. -/
def Tok.isText : Tok → Bool
  | .text _ => true
  | _ => false

/-- State of `xml::Reader`: the not-yet-consumed suffix of the token
stream plus the single-slot pushback buffer `peeked`. -/
structure Reader where
  toks : List Tok
  peeked : Option Tok
deriving Repr, DecidableEq

/-- Model of `Reader::read_inner`: tokenize forward, skipping every token
kind outside the reduced set, until a reduced token or end of input. -/
def readInner : List Tok → Option Tok × List Tok
  | [] => (none, [])
  | .text _ :: rest => readInner rest
  | t :: rest => (some t, rest)

/-- Model of `Reader::read`: return the pushed-back token if present,
else read forward. -/
def read (r : Reader) : Option Tok × Reader :=
  match r.peeked with
  | some e => (some e, ⟨r.toks, none⟩)
  | none =>
    match readInner r.toks with
    | (o, l) => (o, ⟨l, none⟩)

theorem readInner_length_lt :
    ∀ (l : List Tok) {e : Tok} {l' : List Tok},
      readInner l = (some e, l') → l'.length < l.length := by
  intro l
  induction l with
  | nil => intro e l' hl; simp [readInner] at hl
  | cons t rest ih =>
    intro e l' hl
    cases t with
    | text s =>
      have := ih (by simpa [readInner] using hl)
      exact Nat.lt_trans this (by simp)
    | start n a =>
      simp [readInner] at hl
      simp [hl.2]
    | close n =>
      simp [readInner] at hl
      simp [hl.2]
    | empty n a =>
      simp [readInner] at hl
      simp [hl.2]

/-- The inner loop of `Reader::find_before`: `e` is the current token
(already read, pushback known empty); halt is tested first, then the
matcher, otherwise the token is discarded and the next one is read with
`read_inner`. -/
def findBeforeLoop {B : Type} (f : Tok → Option B) (h : Tok → Bool)
    (e : Tok) (toks : List Tok) : Option B × Reader :=
  if h e then (none, ⟨toks, some e⟩)
  else
    match f e with
    | some b => (some b, ⟨toks, none⟩)
    | none =>
      match hr : readInner toks with
      | (some e', t') => findBeforeLoop f h e' t'
      | (none, t') => (none, ⟨t', none⟩)
termination_by toks.length
decreasing_by exact readInner_length_lt toks hr

/-- Model of `Reader::find_before`. -/
def findBefore {B : Type} (f : Tok → Option B) (h : Tok → Bool)
    (r : Reader) : Option B × Reader :=
  match read r with
  | (none, r') => (none, r')
  | (some e, r') => findBeforeLoop f h e r'.toks

/-- Specification-side linear scan over the raw token list: skip
non-reduced tokens, stop unconsumed at the first halting token, return
the first match otherwise. -/
def scan {B : Type} (f : Tok → Option B) (h : Tok → Bool) :
    List Tok → Option B × Reader
  | [] => (none, ⟨[], none⟩)
  | .text _ :: rest => scan f h rest
  | t :: rest =>
    if h t then (none, ⟨rest, some t⟩)
    else
      match f t with
      | some b => (some b, ⟨rest, none⟩)
      | none => scan f h rest

/-- Tokens that a `find_before` scan passes over: the token kinds
`read_inner` skips, and reduced tokens on which the halt predicate is
false and the matcher yields nothing. -/
def passes {B : Type} (f : Tok → Option B) (h : Tok → Bool) (t : Tok) : Bool :=
  t.isText || (!(h t) && (f t).isNone)

/-- Model of `quick_xml::Reader::read_text` (and its span-returning
sibling `read_to_end`, whose bytes `find_raw_matching_tag` slices out of
the input buffer): consume tokens up to the end tag matching `name`,
tracking the nesting depth of same-named tags, and collect the payload
in between.  `none` models the `quick_xml` error on end of input. -/
def readText (name : String) : List Tok → Nat → Option (Bytes × List Tok)
  | [], _ => none
  | .text s :: rest, d =>
    match readText name rest d with
    | some (acc, rem) => some (s ++ acc, rem)
    | none => none
  | .start n _ :: rest, d =>
    if n == name then readText name rest (d + 1) else readText name rest d
  | .empty _ _ :: rest, d => readText name rest d
  | .close n :: rest, d =>
    if n == name then
      (if d == 0 then some ([], rest) else readText name rest (d - 1))
    else readText name rest d

/-- Matcher for an opening tag with the given name, yielding its
attributes. -/
def startAttrsMatcher (tag : String) : Tok → Option (List (String × Bytes))
  | .start n attrs => if n == tag then some attrs else none
  | _ => none

/-- The trivial halt predicate of the unbounded scans. -/
def noHalt : Tok → Bool := fun _ => false

/-- Model of `Reader::find_matching_tag`: find an opening tag with the
provided tag name, with no halt predicate. -/
def findMatchingTag (tag : String) (r : Reader) :
    Option (List (String × Bytes)) × Reader :=
  findBefore (startAttrsMatcher tag) noHalt r

end Xml

/-! ## The response layer (`src/response/xml.rs`) -/

namespace Response

open Xml

/-- Error type of the response module.  The module root defining it is
not among the sources; the variants are modelled from the spec's error
taxonomy (§7) and from the constructor applications visible in
`response/xml.rs` and `de/de_impl.rs`.  `date` stands for the error
converted from `chrono::ParseError`, `utf8` for `std::str::Utf8Error`,
`idErr` for `id::IdError`, and `xml` for errors of the underlying
tokenizer (including a missing end tag in `read_text`). -/
inductive ResponseError where
  | missingTag (tag : String)
  | missingTerm
  | invalidHeader (msg : String)
  | invalidError (msg : String)
  | arxiv (msg : Bytes)
  | trailingEntries
  | custom (msg : String)
  | date
  | utf8
  | idErr (e : IdError)
  | xml
deriving Repr, DecidableEq

/-- Pagination data of the response header.  Modelled from the spec:
`{ total_results: u64, start_index: u64, items_per_page: u64 }` (the
module root defining it is not among the sources). -/
structure Pagination where
  total_results : Nat
  start_index : Nat
  items_per_page : Nat
deriving Repr, DecidableEq

/-- Model of `response::xml::Term`: an empty tag expected to carry an
attribute named `term`. -/
structure Term where
  attrs : List (String × Bytes)
deriving Repr, DecidableEq

/-- Model of `Term::get`: the value of the first attribute named
`term`, or `MissingTerm`. -/
def Term.get (t : Term) : Except ResponseError Bytes :=
  match t.attrs.find? (fun a => a.1 == "term") with
  | some a => .ok a.2
  | none => .error .missingTerm

/-- Model of `Reader::find_text_matching_tag`. -/
def findTextMatchingTag (tag : String) (r : Reader) :
    Except ResponseError (Option Bytes) × Reader :=
  match findMatchingTag tag r with
  | (some _, r₁) =>
    match readText tag r₁.toks 0 with
    | some (s, rest) => (.ok (some s), ⟨rest, r₁.peeked⟩)
    | none => (.error .xml, ⟨[], r₁.peeked⟩)
  | (none, r₁) => (.ok none, r₁)

/-- Model of `Reader::find_raw_matching_tag` (the raw span sliced by
`read_to_end` carries the same payload as the decoded text in this token
model). -/
def findRawMatchingTag (tag : String) (r : Reader) :
    Except ResponseError (Option Bytes) × Reader :=
  match findMatchingTag tag r with
  | (some _, r₁) =>
    match readText tag r₁.toks 0 with
    | some (s, rest) => (.ok (some s), ⟨rest, r₁.peeked⟩)
    | none => (.error .xml, ⟨[], r₁.peeked⟩)
  | (none, r₁) => (.ok none, r₁)

/-- Model of the `AndNotMissing` helper trait: map `Ok(None)` to
`MissingTag(tag)`. -/
def andNotMissing {α : Type} (v : Except ResponseError (Option α) × Reader)
    (tag : String) : Except ResponseError α × Reader :=
  match v with
  | (.ok (some a), r) => (.ok a, r)
  | (.ok none, r) => (.error (.missingTag tag), r)
  | (.error e, r) => (.error e, r)

/-- Matcher for an opening tag with the given name. -/
def startMatcher (name : String) : Tok → Option Unit
  | .start n _ => if n == name then some () else none
  | _ => none

/-- Matcher for an empty tag with the given name, yielding its
attributes. -/
def emptyMatcher (name : String) : Tok → Option (List (String × Bytes))
  | .empty n attrs => if n == name then some attrs else none
  | _ => none

/-- Halt predicate stopping at an end tag named `limit`. -/
def limitHalt (limit : String) : Tok → Bool
  | .close n => n == limit
  | _ => false

/-- Model of `ResponseReader::next_tag_with_name_limit`: find the next
start tag named `name` but do not read an end tag named `limit`. -/
def nextTagWithNameLimit (name limit : String) (r : Reader) :
    Except ResponseError (Option Bytes) × Reader :=
  match findBefore (startMatcher name) (limitHalt limit) r with
  | (some _, r₁) =>
    match readText name r₁.toks 0 with
    | some (s, rest) => (.ok (some s), ⟨rest, r₁.peeked⟩)
    | none => (.error .xml, ⟨[], r₁.peeked⟩)
  | (none, r₁) => (.ok none, r₁)

/-- Model of `ResponseReader::next_updated`. -/
def nextUpdated (r : Reader) : Except ResponseError Bytes × Reader :=
  andNotMissing (nextTagWithNameLimit "updated" "entry" r) "updated"

/-- Model of `ResponseReader::next_published`. -/
def nextPublished (r : Reader) : Except ResponseError Bytes × Reader :=
  andNotMissing (nextTagWithNameLimit "published" "entry" r) "published"

/-- Model of `ResponseReader::next_title`. -/
def nextTitle (r : Reader) : Except ResponseError Bytes × Reader :=
  andNotMissing (nextTagWithNameLimit "title" "entry" r) "title"

/-- Model of `ResponseReader::next_summary`. -/
def nextSummary (r : Reader) : Except ResponseError Bytes × Reader :=
  andNotMissing (nextTagWithNameLimit "summary" "entry" r) "summary"

/-- The halt predicate of `next_author`: stop at
`Start(arxiv:comment)`, `Start(arxiv:doi)`, `Start(arxiv:journal_ref)`,
`Empty(arxiv:primary_category)` or `End(entry)`. -/
def authorHalt : Tok → Bool
  | .start n _ => n == "arxiv:comment" || n == "arxiv:doi" || n == "arxiv:journal_ref"
  | .empty n _ => n == "arxiv:primary_category"
  | .close n => n == "entry"
  | _ => false

/-- Model of `ResponseReader::next_author`. -/
def nextAuthor (r : Reader) : Except ResponseError Bool × Reader :=
  match findBefore (startMatcher "author") authorHalt r with
  | (some _, r₁) => (.ok true, r₁)
  | (none, r₁) => (.ok false, r₁)

/-- Model of `ResponseReader::next_author_name`. -/
def nextAuthorName (r : Reader) : Except ResponseError Bytes × Reader :=
  andNotMissing (nextTagWithNameLimit "name" "author" r) "name"

/-- Model of `ResponseReader::next_author_affiliation`. -/
def nextAuthorAffiliation (r : Reader) : Except ResponseError (Option Bytes) × Reader :=
  nextTagWithNameLimit "affiliation" "author" r

/-- The halt predicate of `next_doi`: stop at
`Start(arxiv:journal_ref)`, `Start(arxiv:comment)`,
`Empty(arxiv:primary_category)` or `End(entry)`. -/
def doiHalt : Tok → Bool
  | .start n _ => n == "arxiv:journal_ref" || n == "arxiv:comment"
  | .empty n _ => n == "arxiv:primary_category"
  | .close n => n == "entry"
  | _ => false

/-- Model of `ResponseReader::next_doi`. -/
def nextDoi (r : Reader) : Except ResponseError (Option Bytes) × Reader :=
  match findBefore (startMatcher "arxiv:doi") doiHalt r with
  | (some _, r₁) =>
    match readText "arxiv:doi" r₁.toks 0 with
    | some (s, rest) => (.ok (some s), ⟨rest, r₁.peeked⟩)
    | none => (.error .xml, ⟨[], r₁.peeked⟩)
  | (none, r₁) => (.ok none, r₁)

/-- The halt predicate of `next_comment`: stop at
`Start(arxiv:journal_ref)`, `Empty(arxiv:primary_category)` or
`End(entry)`. -/
def commentHalt : Tok → Bool
  | .start n _ => n == "arxiv:journal_ref"
  | .empty n _ => n == "arxiv:primary_category"
  | .close n => n == "entry"
  | _ => false

/-- Model of `ResponseReader::next_comment`. -/
def nextComment (r : Reader) : Except ResponseError (Option Bytes) × Reader :=
  match findBefore (startMatcher "arxiv:comment") commentHalt r with
  | (some _, r₁) =>
    match readText "arxiv:comment" r₁.toks 0 with
    | some (s, rest) => (.ok (some s), ⟨rest, r₁.peeked⟩)
    | none => (.error .xml, ⟨[], r₁.peeked⟩)
  | (none, r₁) => (.ok none, r₁)

/-- The halt predicate of `next_journal_ref`: stop at
`Empty(arxiv:primary_category)` or `End(entry)`. -/
def journalRefHalt : Tok → Bool
  | .empty n _ => n == "arxiv:primary_category"
  | .close n => n == "entry"
  | _ => false

/-- Model of `ResponseReader::next_journal_ref`. -/
def nextJournalRef (r : Reader) : Except ResponseError (Option Bytes) × Reader :=
  match findBefore (startMatcher "arxiv:journal_ref") journalRefHalt r with
  | (some _, r₁) =>
    match readText "arxiv:journal_ref" r₁.toks 0 with
    | some (s, rest) => (.ok (some s), ⟨rest, r₁.peeked⟩)
    | none => (.error .xml, ⟨[], r₁.peeked⟩)
  | (none, r₁) => (.ok none, r₁)

/-- Model of `ResponseReader::next_term`: find an empty tag with the
given name, not exceeding the current entry. -/
def nextTerm (name : String) (r : Reader) :
    Except ResponseError (Option Term) × Reader :=
  match findBefore (emptyMatcher name) (limitHalt "entry") r with
  | (some attrs, r₁) => (.ok (some ⟨attrs⟩), r₁)
  | (none, r₁) => (.ok none, r₁)

/-- Model of `ResponseReader::next_primary_category`. -/
def nextPrimaryCategory (r : Reader) : Except ResponseError Term × Reader :=
  andNotMissing (nextTerm "arxiv:primary_category" r) "arxiv:primary_category"

/-- Model of `ResponseReader::next_category`. -/
def nextCategory (r : Reader) : Except ResponseError (Option Term) × Reader :=
  nextTerm "category" r

/-- The reserved error URL prefix checked by `next_id`: the bytes of
`http://arxiv.org/api/errors#`. -/
def errorsUrl : Bytes :=
  [104, 116, 116, 112, 58, 47, 47, 97, 114, 120, 105, 118, 46, 111, 114,
   103, 47, 97, 112, 105, 47, 101, 114, 114, 111, 114, 115, 35]

/-- The URL prefix stripped by `next_id`: the bytes of
`http://arxiv.org/abs/`. -/
def absUrl : Bytes :=
  [104, 116, 116, 112, 58, 47, 47, 97, 114, 120, 105, 118, 46, 111, 114,
   103, 47, 97, 98, 115, 47]

/-- Tokens that are not an opening tag with the given name (what an
unbounded scan for that tag passes over). -/
def notStartTag (n : String) : Tok → Bool
  | .start m _ => m != n
  | _ => true

/-- Lossy byte-to-string rendering standing in for
`String::from_utf8_lossy` in the `next_id` error message (exact for
ASCII input; other bytes are replaced characterwise). -/
def lossyString (b : Bytes) : String :=
  String.mk (b.map fun n => if n < 128 then Char.ofNat n else Char.ofNat 0xFFFD)

/-- The message of the `InvalidHeader` error raised by `next_id` on an
`id` tag in unexpected format. -/
def idUnexpectedMsg (u : Bytes) : String :=
  "`id` tag in unexpected format: " ++ lossyString u

/-- Model of `ResponseReader::next_id`. -/
def nextId (r : Reader) : Except ResponseError (Option Bytes) × Reader :=
  match findRawMatchingTag "id" r with
  | (.ok (some url), r₁) =>
    if errorsUrl.isPrefixOf url then
      match findTextMatchingTag "summary" r₁ with
      | (.ok (some contents), r₂) => (.error (.arxiv contents), r₂)
      | (.ok none, r₂) => (.error (.invalidError "missing `summary` tag"), r₂)
      | (.error e, r₂) => (.error e, r₂)
    else
      match stripBytes absUrl url with
      | some idBytes => (.ok (some idBytes), r₁)
      | none => (.error (.invalidHeader (idUnexpectedMsg url)), r₁)
  | (.ok none, r₁) => (.ok none, r₁)
  | (.error e, r₁) => (.error e, r₁)

/-- Model of `str::parse::<u64>` applied to the text of a pagination
tag: an optional leading `+`, one or more ASCII digits, and a value
fitting in a `u64`. -/
def parseU64 (b : Bytes) : Option Nat :=
  let digits := match b with
    | 43 :: rest => rest
    | _ => b
  if digits.isEmpty then none
  else if digits.all (fun c => 48 ≤ c && c ≤ 57) then
    let v := digits.foldl (fun acc c => acc * 10 + (c - 48)) 0
    if v < 2 ^ 64 then some v else none
  else none

/-- Model of `ResponseReader::read_tag_u64`. -/
def readTagU64 (name : String) (r : Reader) : Except ResponseError Nat × Reader :=
  match findTextMatchingTag name r with
  | (.ok (some s), r₁) =>
    match parseU64 s with
    | some v => (.ok v, r₁)
    | none => (.error (.invalidHeader "expected pagination to be non-negative integer"), r₁)
  | (.ok none, r₁) => (.error (.missingTag name), r₁)
  | (.error e, r₁) => (.error e, r₁)

/-- Model of `ResponseReader::read_updated`, parameterized by the
external RFC-3339 parser (`chrono::DateTime::parse_from_rfc3339`). -/
def readUpdated {D : Type} (parseDate : Bytes → Option D) (r : Reader) :
    Except ResponseError D × Reader :=
  match findTextMatchingTag "updated" r with
  | (.ok (some s), r₁) =>
    match parseDate s with
    | some d => (.ok d, r₁)
    | none => (.error .date, r₁)
  | (.ok none, r₁) => (.error (.missingTag "updated"), r₁)
  | (.error e, r₁) => (.error e, r₁)

/-- Sequencing of two fallible reader steps, mirroring the `?` operator:
on success the continuation runs on the updated reader, on error the
error and the reader state are returned as they stand. -/
def bindStep {E α β : Type} (m : Except E α × Reader)
    (k : α → Reader → Except E β × Reader) : Except E β × Reader :=
  match m with
  | (.ok a, r) => k a r
  | (.error e, r) => (.error e, r)

/-- Model of `ResponseReader::read_pagination`. -/
def readPagination (r : Reader) : Except ResponseError Pagination × Reader :=
  bindStep (readTagU64 "opensearch:totalResults" r) fun total_results r₁ =>
  bindStep (readTagU64 "opensearch:startIndex" r₁) fun start_index r₂ =>
  bindStep (readTagU64 "opensearch:itemsPerPage" r₂) fun items_per_page r₃ =>
    (.ok ⟨total_results, start_index, items_per_page⟩, r₃)

/-- Model of `ResponseReader::init`, starting from the token stream of
the input bytes. -/
def init {D : Type} (parseDate : Bytes → Option D) (toks : List Tok) :
    Except ResponseError (D × Pagination) × Reader :=
  bindStep (readUpdated parseDate ⟨toks, none⟩) fun updated r₁ =>
  bindStep (readPagination r₁) fun pagination r₂ =>
    (.ok (updated, pagination), r₂)

/-- Specification-side first occurrence of a start tag: scan linearly
for the first opening tag with the given name, return the suffix after
it. -/
def firstTag (name : String) : List Tok → Option (List Tok)
  | [] => none
  | .start n _ :: rest => if n == name then some rest else firstTag name rest
  | _ :: rest => firstTag name rest

/-- Specification-side text of the first tag with the given name:
`Ok none` when the tag never appears. -/
def specTagText (name : String) (toks : List Tok) :
    Except ResponseError (Option (Bytes × List Tok)) :=
  match firstTag name toks with
  | none => .ok none
  | some rest =>
    match readText name rest 0 with
    | some (s, rem) => .ok (some (s, rem))
    | none => .error .xml

/-- Specification-side header scalar read as a non-negative integer,
following §4.2 of the spec: an unbounded scan for the tag, `MissingTag`
when it never appears, `InvalidHeader` when the text is not a
non-negative integer. -/
def specU64 (name : String) (toks : List Tok) :
    Except ResponseError (Nat × List Tok) :=
  match specTagText name toks with
  | .error e => .error e
  | .ok none => .error (.missingTag name)
  | .ok (some (s, rest)) =>
    match parseU64 s with
    | some v => .ok (v, rest)
    | none => .error (.invalidHeader "expected pagination to be non-negative integer")

/-- Specification-side description of `init`, following the words of
§4.2: scan for the `updated` tag with no boundary and parse its text as
a date-time, then scan for the three pagination tags in order, each as a
non-negative integer; fail with `MissingTag` naming any tag that never
appears. -/
def initSpec {D : Type} (parseDate : Bytes → Option D) (toks : List Tok) :
    Except ResponseError (D × Pagination × List Tok) :=
  match specTagText "updated" toks with
  | .error e => .error e
  | .ok none => .error (.missingTag "updated")
  | .ok (some (s, t1)) =>
    match parseDate s with
    | none => .error .date
    | some d =>
      match specU64 "opensearch:totalResults" t1 with
      | .error e => .error e
      | .ok (total_results, t2) =>
        match specU64 "opensearch:startIndex" t2 with
        | .error e => .error e
        | .ok (start_index, t3) =>
          match specU64 "opensearch:itemsPerPage" t3 with
          | .error e => .error e
          | .ok (items_per_page, t4) =>
            .ok (d, ⟨total_results, start_index, items_per_page⟩, t4)

/-- Boundary containment of a cursor state: the next `read` either finds
the input exhausted or returns (without having consumed) a token
accepted by the given halt predicate. -/
def AtBoundary (r' : Reader) (halts : Tok → Bool) : Prop :=
  (read r').1 = none ∨ ∃ t, (read r').1 = some t ∧ halts t = true

/-- Tokens that a mandatory-field scan for tag `n` (bounded by the
record's closing `entry` tag) passes over. -/
def mandPass (n : String) : Tok → Bool
  | .text _ => true
  | .start m _ => m != n
  | .close m => m != "entry"
  | .empty _ _ => true

/-- The contract of a mandatory per-record accessor for tag `n`:
(1) tokens other than the sought tag and the record's closing tag are
skipped and the tag's text is returned when found; (2) the record's
closing tag stops the scan unconsumed with `MissingTag n`; (3) end of
input yields `MissingTag n`; (4) every `MissingTag` failure names `n`
and leaves the cursor at end of input or exactly before the closing
`entry` tag. -/
def MandatorySpec (g : Reader → Except ResponseError Bytes × Reader)
    (n : String) : Prop :=
  (∀ pre attrs c rest, pre.all (mandPass n) = true →
    g ⟨pre ++ Tok.start n attrs :: Tok.text c :: Tok.close n :: rest, none⟩ =
      (.ok c, ⟨rest, none⟩)) ∧
  (∀ pre rest, pre.all (mandPass n) = true →
    g ⟨pre ++ Tok.close "entry" :: rest, none⟩ =
      (.error (.missingTag n), ⟨rest, some (Tok.close "entry")⟩)) ∧
  (∀ pre, pre.all (mandPass n) = true →
    g ⟨pre, none⟩ = (.error (.missingTag n), ⟨[], none⟩)) ∧
  (∀ r t r', g r = (.error (.missingTag t), r') →
    t = n ∧ ((read r').1 = none ∨ (read r').1 = some (Tok.close "entry")))

end Response

/-! ## The shape adapter (`src/de/de_impl.rs`) -/

namespace De

open Xml Response

/-- The fixed allowed-field table `ALLOWED_FIELDS` of `de_impl.rs`. -/
def ALLOWED_FIELDS : List String :=
  ["id", "title", "updated", "summary", "categories", "published", "comment",
   "primary_category", "journal_ref", "authors", "doi"]

/-- State of `EntryMapAccess`: the optional identifier (present when the
record is decoded as a sequence element, absent when the identifier was
consumed as the map key), the field names requested by the target type,
and the current index into the allowed-field table. -/
structure EntryMapAccess where
  id : Option Bytes
  fields : List String
  idx : Nat
deriving Repr, DecidableEq

/-- Model of `EntryMapAccess::next_key_seed`: walk the allowed-field
table from the current index, skipping entries the target did not
request; yield the field name without advancing past it. -/
def nextKeySeedLoop : Nat → EntryMapAccess → Option String × EntryMapAccess
  | 0, s => (none, s)
  | n + 1, s =>
    if s.idx < 11 then
      let name := ALLOWED_FIELDS.getD s.idx ""
      if s.fields.contains name then (some name, s)
      else nextKeySeedLoop n { s with idx := s.idx + 1 }
    else (none, s)

/-- The loop iterates at most `ALLOWED_FIELDS.len() - idx ≤ 11` times
(the index only grows), so fuel `11` always reaches the loop's own
exit. -/
def nextKeySeed (s : EntryMapAccess) : Option String × EntryMapAccess :=
  nextKeySeedLoop 11 s

/-- The mandatory-string getters a `StrTagDeserializer` can hold
(`getter: ResponseReader::next_title` and friends). -/
inductive StrGetter where
  | title
  | updated
  | summary
  | published
  | authorName
deriving Repr, DecidableEq

/-- The optional-string getters a `StrTagOptDeserializer` can hold. -/
inductive OptGetter where
  | comment
  | journalRef
  | doi
  | affiliation
deriving Repr, DecidableEq

/-- The Feed Cursor accessor named by a `StrGetter`. -/
def strGetterFun : StrGetter → Reader → Except ResponseError Bytes × Reader
  | .title => nextTitle
  | .updated => nextUpdated
  | .summary => nextSummary
  | .published => nextPublished
  | .authorName => nextAuthorName

/-- The Feed Cursor accessor named by an `OptGetter`. -/
def optGetterFun : OptGetter → Reader → Except ResponseError (Option Bytes) × Reader
  | .comment => nextComment
  | .journalRef => nextJournalRef
  | .doi => nextDoi
  | .affiliation => nextAuthorAffiliation

/-- The deserializer value handed to the seed by
`EntryMapAccess::next_value_seed`: one constructor per adapter type
constructed in its match arms. -/
inductive ValueDeser where
  | idDe (b : Bytes)
  | strTagDe (g : StrGetter)
  | strTagOptDe (g : OptGetter)
  | catSeq
  | termDe (t : Term)
  | authorSeq
deriving Repr, DecidableEq

/-- Model of `EntryMapAccess::next_value_seed`: dispatch on the current
table index, hand the matching adapter to the seed, and advance the
index.  Index 7 runs `next_primary_category` eagerly and propagates its
error without advancing (the `?` in the source); index 0 without a
stored identifier is the logic error of requesting `id` after it was
consumed as the map key.  Indices past 10 model the `unreachable!`
panic; the adapter never reaches them. -/
def nextValueSeed (s : EntryMapAccess) (r : Reader) :
    Except ResponseError ValueDeser × EntryMapAccess × Reader :=
  match s.idx with
  | 0 =>
    match s.id with
    | some b => (.ok (.idDe b), { s with idx := s.idx + 1 }, r)
    | none => (.error (.custom "`id` tag was already deserialized as the map key"),
        { s with idx := s.idx + 1 }, r)
  | 1 => (.ok (.strTagDe .title), { s with idx := s.idx + 1 }, r)
  | 2 => (.ok (.strTagDe .updated), { s with idx := s.idx + 1 }, r)
  | 3 => (.ok (.strTagDe .summary), { s with idx := s.idx + 1 }, r)
  | 4 => (.ok .catSeq, { s with idx := s.idx + 1 }, r)
  | 5 => (.ok (.strTagDe .published), { s with idx := s.idx + 1 }, r)
  | 6 => (.ok (.strTagOptDe .comment), { s with idx := s.idx + 1 }, r)
  | 7 =>
    match nextPrimaryCategory r with
    | (.ok t, r₁) => (.ok (.termDe t), { s with idx := s.idx + 1 }, r₁)
    | (.error e, r₁) => (.error e, s, r₁)
  | 8 => (.ok (.strTagOptDe .journalRef), { s with idx := s.idx + 1 }, r)
  | 9 => (.ok .authorSeq, { s with idx := s.idx + 1 }, r)
  | 10 => (.ok (.strTagOptDe .doi), { s with idx := s.idx + 1 }, r)
  | _ => (.error (.custom "unreachable"), s, r)

/-- The alternating `next_key_seed` / `next_value_seed` driving loop of
a record decode, recording each yielded key together with the table
index its value is dispatched on, and stopping at the first value
error. -/
def entryMapRun : Nat → EntryMapAccess → Reader →
    List (String × Nat) × Option ResponseError
  | 0, _, _ => ([], none)
  | fuel + 1, s, r =>
    match nextKeySeed s with
    | (none, _) => ([], none)
    | (some k, s₁) =>
      match nextValueSeed s₁ r with
      | (.ok _, s₂, r₂) =>
        let rest := entryMapRun fuel s₂ r₂
        ((k, s₁.idx) :: rest.1, rest.2)
      | (.error e, _, _) => ([(k, s₁.idx)], some e)

/-- Model of `ResponseDeserializer::deserialize_option`, with the
visitor abstracted: `visitSome` stands for `visitor.visit_some` applied
to the `EntryDeserializer` holding the first identifier, `visitNone` for
`visitor.visit_none()`. -/
def deserializeOption {α : Type}
    (visitSome : Bytes → Reader → Except ResponseError α × Reader)
    (visitNone : α) (r : Reader) : Except ResponseError α × Reader :=
  match nextId r with
  | (.ok (some i), r₁) =>
    match visitSome i r₁ with
    | (val, r₂) =>
      match nextId r₂ with
      | (.error e, r₃) => (.error e, r₃)
      | (.ok (some _), r₃) => (.error .trailingEntries, r₃)
      | (.ok none, r₃) => (val, r₃)
  | (.ok none, r₁) => (.ok visitNone, r₁)
  | (.error e, r₁) => (.error e, r₁)

/-- The per-record map access created in map mode
(`MapAccess::next_value_seed` of `ResponseDeserializer`): the
identifier slot is `None` because the `id` key was already handed out by
`next_key_seed`. -/
def mapValueEntryAccess (fields : List String) : EntryMapAccess :=
  ⟨none, fields, 0⟩

/-- The per-record map access created in sequence mode
(`SeqAccess::next_element_seed` of `ResponseDeserializer`): the
identifier is available as the `id` field. -/
def seqElementEntryAccess (i : Bytes) (fields : List String) : EntryMapAccess :=
  ⟨some i, fields, 0⟩

/-- Specification-side canonical key walk: the indices `i ≤ j < 11` of
the allowed-field table whose field name the target requested, in
increasing order. -/
def filterRange (i : Nat) (fields : List String) : List Nat :=
  (List.range' i (11 - i)).filter (fun j => fields.contains (ALLOWED_FIELDS.getD j ""))

/-- UTF-8 continuation byte test. -/
def utf8Cont (c : Nat) : Bool := 0x80 ≤ c && c ≤ 0xBF

/-- Model of `std::str::from_utf8` validity. -/
def utf8Valid : Bytes → Bool
  | [] => true
  | c :: rest =>
    if c ≤ 0x7F then utf8Valid rest
    else if 0xC2 ≤ c && c ≤ 0xDF then
      match rest with
      | c2 :: r => utf8Cont c2 && utf8Valid r
      | _ => false
    else if c == 0xE0 then
      match rest with
      | c2 :: c3 :: r => (0xA0 ≤ c2 && c2 ≤ 0xBF) && utf8Cont c3 && utf8Valid r
      | _ => false
    else if (0xE1 ≤ c && c ≤ 0xEC) || c == 0xEE || c == 0xEF then
      match rest with
      | c2 :: c3 :: r => utf8Cont c2 && utf8Cont c3 && utf8Valid r
      | _ => false
    else if c == 0xED then
      match rest with
      | c2 :: c3 :: r => (0x80 ≤ c2 && c2 ≤ 0x9F) && utf8Cont c3 && utf8Valid r
      | _ => false
    else if c == 0xF0 then
      match rest with
      | c2 :: c3 :: c4 :: r =>
        (0x90 ≤ c2 && c2 ≤ 0xBF) && utf8Cont c3 && utf8Cont c4 && utf8Valid r
      | _ => false
    else if 0xF1 ≤ c && c ≤ 0xF3 then
      match rest with
      | c2 :: c3 :: c4 :: r => utf8Cont c2 && utf8Cont c3 && utf8Cont c4 && utf8Valid r
      | _ => false
    else if c == 0xF4 then
      match rest with
      | c2 :: c3 :: c4 :: r =>
        (0x80 ≤ c2 && c2 ≤ 0x8F) && utf8Cont c3 && utf8Cont c4 && utf8Valid r
      | _ => false
    else false

/-- Model of `IdDeserializer::deserialize_u64`: parse the identifier
bytes with the external parser and visit its canonical packed `u64`. -/
def idDeserializeU64 (b : Bytes) : Except ResponseError Nat :=
  match Id.ArticleId.parseBytes b with
  | .ok a => .ok a.serialize
  | .error e => .error (.idErr e)

/-- Model of `IdDeserializer::deserialize_bytes` (and
`deserialize_byte_buf`): visit the identifier bytes borrowed and
unchanged. -/
def idDeserializeBytes (b : Bytes) : Except ResponseError Bytes := .ok b

/-- Model of `IdDeserializer::deserialize_any` serving `str`/`string`
requests: visit the same bytes as a borrowed `str` after UTF-8
validation. -/
def idDeserializeStr (b : Bytes) : Except ResponseError Bytes :=
  if utf8Valid b then .ok b else .error .utf8

end De

/-! ## Reader-layer lemmas -/

namespace Xml

theorem scan_readInner_none {B : Type} (f : Tok → Option B) (h : Tok → Bool) :
    ∀ {l t'}, readInner l = (none, t') → scan f h l = (none, ⟨[], none⟩) ∧ t' = [] := by
  intro l
  induction l with
  | nil => intro t' hl; simp [readInner] at hl; simp [scan, hl]
  | cons t rest ih =>
    intro t' hl
    cases t with
    | text s => exact ⟨by simpa [scan] using (ih (by simpa [readInner] using hl)).1,
        (ih (by simpa [readInner] using hl)).2⟩
    | start n a => simp [readInner] at hl
    | close n => simp [readInner] at hl
    | empty n a => simp [readInner] at hl

theorem scan_readInner_some {B : Type} (f : Tok → Option B) (h : Tok → Bool) :
    ∀ {l e t'}, readInner l = (some e, t') → scan f h l = scan f h (e :: t') := by
  intro l
  induction l with
  | nil => intro e t' hl; simp [readInner] at hl
  | cons t rest ih =>
    intro e t' hl
    cases t with
    | text s => simpa [scan] using ih (by simpa [readInner] using hl)
    | start n a =>
      simp [readInner] at hl
      rw [hl.1, hl.2]
    | close n =>
      simp [readInner] at hl
      rw [hl.1, hl.2]
    | empty n a =>
      simp [readInner] at hl
      rw [hl.1, hl.2]

theorem readInner_not_text : ∀ {l : List Tok} {e l'},
    readInner l = (some e, l') → e.isText = false := by
  intro l
  induction l with
  | nil => intro e l' hl; simp [readInner] at hl
  | cons t rest ih =>
    intro e l' hl
    cases t with
    | text s => exact ih (by simpa [readInner] using hl)
    | start n a => simp [readInner] at hl; simp [← hl.1, Tok.isText]
    | close n => simp [readInner] at hl; simp [← hl.1, Tok.isText]
    | empty n a => simp [readInner] at hl; simp [← hl.1, Tok.isText]

theorem findBeforeLoop_unfold {B : Type} (f : Tok → Option B) (h : Tok → Bool)
    (e : Tok) (toks : List Tok) :
    findBeforeLoop f h e toks =
      if h e then (none, ⟨toks, some e⟩)
      else
        match f e with
        | some b => (some b, ⟨toks, none⟩)
        | none =>
          match readInner toks with
          | (some e', t') => findBeforeLoop f h e' t'
          | (none, t') => (none, ⟨t', none⟩) := by
  rw [findBeforeLoop]
  rcases hr : readInner toks with ⟨o, t'⟩
  cases o <;> rfl

theorem scan_cons_not_text {B : Type} (f : Tok → Option B) (h : Tok → Bool)
    (e : Tok) (l : List Tok) (he : e.isText = false) :
    scan f h (e :: l) =
      if h e then (none, ⟨l, some e⟩)
      else
        match f e with
        | some b => (some b, ⟨l, none⟩)
        | none => scan f h l := by
  cases e <;> first
    | rfl
    | simp [Tok.isText] at he

/-- For a non-text current token, the `find_before` inner loop computes
exactly the linear scan with that token put in front of the stream. -/
theorem findBeforeLoop_eq_scan {B : Type} (f : Tok → Option B) (h : Tok → Bool) :
    ∀ (n : Nat) (e : Tok) (toks : List Tok), toks.length ≤ n → e.isText = false →
      findBeforeLoop f h e toks = scan f h (e :: toks) := by
  intro n
  induction n with
  | zero =>
    intro e toks hlen he
    have htoks : toks = [] := List.length_eq_zero.mp (Nat.le_zero.mp hlen)
    subst htoks
    rw [findBeforeLoop_unfold, scan_cons_not_text f h e _ he]
    simp only [readInner, scan]
  | succ n ih =>
    intro e toks hlen he
    rw [findBeforeLoop_unfold, scan_cons_not_text f h e _ he]
    rcases hr : readInner toks with ⟨o, t'⟩
    cases o with
    | none =>
      rcases scan_readInner_none f h hr with ⟨hs, ht⟩
      subst ht
      rw [hs]
    | some e' =>
      have hlt := readInner_length_lt toks hr
      have hIH := ih e' t' (Nat.le_of_lt_succ (Nat.lt_of_lt_of_le hlt hlen))
        (readInner_not_text hr)
      split
      · rfl
      cases hfe : f e with
      | some b => simp only [hfe]
      | none =>
        simp only [hfe]
        exact hIH.trans (scan_readInner_some f h hr).symm

/-- On a reader with an empty pushback slot, `find_before` computes the
linear scan of the remaining tokens. -/
theorem findBefore_eq_scan {B : Type} (f : Tok → Option B) (h : Tok → Bool)
    (toks : List Tok) : findBefore f h ⟨toks, none⟩ = scan f h toks := by
  unfold findBefore read
  simp only
  rcases hr : readInner toks with ⟨o, t'⟩
  cases o with
  | none =>
    rcases scan_readInner_none f h hr with ⟨hs, ht⟩
    subst ht
    simp [hs]
  | some e =>
    simp only
    rw [findBeforeLoop_eq_scan f h t'.length e t' (Nat.le_refl _) (readInner_not_text hr),
      ← scan_readInner_some f h hr]

theorem read_peeked_none (r : Reader) : (read r).2.peeked = none := by
  unfold read
  rcases r with ⟨toks, peeked⟩
  cases peeked with
  | none =>
    rcases hr : readInner toks with ⟨o, t'⟩
    simp [hr]
  | some e => simp

theorem findBefore_peeked_none {B : Type} (f : Tok → Option B) (h : Tok → Bool)
    (l : List Tok) :
    findBefore f h ⟨l, none⟩ =
      match readInner l with
      | (some e', t') => findBeforeLoop f h e' t'
      | (none, t') => (none, ⟨t', none⟩) := by
  simp only [findBefore, read]
  rcases hr : readInner l with ⟨o, t'⟩
  cases o <;> rfl

theorem scan_append_passes {B : Type} (f : Tok → Option B) (h : Tok → Bool) :
    ∀ (pre l : List Tok), (∀ t ∈ pre, passes f h t = true) →
      scan f h (pre ++ l) = scan f h l := by
  intro pre
  induction pre with
  | nil => intro l _; rfl
  | cons t rest ih =>
    intro l hp
    have ht : passes f h t = true := hp t (by simp)
    have hrest : ∀ u ∈ rest, passes f h u = true := fun u hu => hp u (by simp [hu])
    cases hit : t.isText with
    | true =>
      cases t with
      | text s => simpa [scan] using ih l hrest
      | start nm a => simp [Tok.isText] at hit
      | close nm => simp [Tok.isText] at hit
      | empty nm a => simp [Tok.isText] at hit
    | false =>
      have hht : h t = false := by
        simp [passes, hit] at ht
        exact ht.1
      have hft : f t = none := by
        simp [passes, hit, Option.isNone_iff_eq_none] at ht
        exact ht.2
      rw [List.cons_append, scan_cons_not_text f h t _ hit]
      simp [hht, hft]
      exact ih l hrest

theorem scan_halt {B : Type} (f : Tok → Option B) (h : Tok → Bool) (e : Tok)
    (l : List Tok) (he : e.isText = false) (hh : h e = true) :
    scan f h (e :: l) = (none, ⟨l, some e⟩) := by
  rw [scan_cons_not_text f h e l he]
  simp [hh]

theorem scan_found {B : Type} (f : Tok → Option B) (h : Tok → Bool) (e : Tok) (b : B)
    (l : List Tok) (he : e.isText = false) (hh : h e = false) (hf : f e = some b) :
    scan f h (e :: l) = (some b, ⟨l, none⟩) := by
  rw [scan_cons_not_text f h e l he]
  simp [hh, hf]

theorem scan_all_passes {B : Type} (f : Tok → Option B) (h : Tok → Bool)
    (l : List Tok) (hp : ∀ t ∈ l, passes f h t = true) :
    scan f h l = (none, ⟨[], none⟩) := by
  have := scan_append_passes f h l [] hp
  simpa using this

/-- Inversion: a scan returning `none` either exhausted the input or
halted, pushing the (non-text) halt token back. -/
theorem scan_none_inv {B : Type} (f : Tok → Option B) (h : Tok → Bool) :
    ∀ (l : List Tok) (r' : Reader), scan f h l = (none, r') →
      r' = ⟨[], none⟩ ∨ ∃ t, r'.peeked = some t ∧ h t = true ∧ t.isText = false := by
  intro l
  induction l with
  | nil => intro r' hs; left; simpa [scan] using hs.symm
  | cons t rest ih =>
    intro r' hs
    cases hit : t.isText with
    | true =>
      cases t with
      | text s => exact ih r' (by simpa [scan] using hs)
      | start nm a => simp [Tok.isText] at hit
      | close nm => simp [Tok.isText] at hit
      | empty nm a => simp [Tok.isText] at hit
    | false =>
      rw [scan_cons_not_text f h t _ hit] at hs
      by_cases hht : h t = true
      · right
        refine ⟨t, ?_, hht, hit⟩
        simp [hht] at hs
        rw [← hs]
      · simp [hht] at hs
        cases hft : f t with
        | some b => rw [hft] at hs; simp at hs
        | none => rw [hft] at hs; exact ih r' hs

/-- C1: for every matcher `f` and halt predicate `h`, `find_before`
follows exactly the specified loop: read a token (taking the pushed-back
token first); no token means `None`; a halting token is pushed back
unconsumed (so the next `read` returns it) and `None` is returned; a
matching token is consumed and its value returned; any other token is
discarded and the loop repeats.  The halt predicate is tested before the
matcher on every token. -/
theorem find_before_follows_spec_loop :
    (∀ {B : Type} (f : Tok → Option B) (h : Tok → Bool) (r : Reader),
      findBefore f h r =
        match read r with
        | (none, r') => (none, r')
        | (some e, r') =>
          if h e then (none, ⟨r'.toks, some e⟩)
          else
            match f e with
            | some b => (some b, r')
            | none => findBefore f h r') ∧
    (∀ (toks : List Tok) (e : Tok), read ⟨toks, some e⟩ = (some e, ⟨toks, none⟩)) := by
  constructor
  · intro B f h r
    rcases r with ⟨toks, peeked⟩
    cases peeked with
    | some e =>
      show findBeforeLoop f h e toks =
        (if h e then (none, ⟨toks, some e⟩)
         else
           match f e with
           | some b => (some b, (⟨toks, none⟩ : Reader))
           | none => findBefore f h ⟨toks, none⟩)
      rw [findBeforeLoop_unfold, findBefore_peeked_none]
    | none =>
      rcases hr : readInner toks with ⟨o, l⟩
      have hread : read ⟨toks, none⟩ = (o, (⟨l, none⟩ : Reader)) := by
        simp [read, hr]
      rw [findBefore_peeked_none, hr, hread]
      cases o with
      | none => rfl
      | some e =>
        show findBeforeLoop f h e l =
          (if h e then (none, ⟨l, some e⟩)
           else
             match f e with
             | some b => (some b, (⟨l, none⟩ : Reader))
             | none => findBefore f h ⟨l, none⟩)
        rw [findBeforeLoop_unfold, findBefore_peeked_none]
  · intro toks e
    rfl

theorem readInner_none_nil : ∀ {l : List Tok} {t'},
    readInner l = (none, t') → t' = [] := by
  intro l
  induction l with
  | nil =>
    intro t' hl
    have h2 : ([] : List Tok) = t' := congrArg Prod.snd hl
    exact h2.symm
  | cons t rest ih =>
    intro t' hl
    cases t with
    | text s => exact ih (by simpa [readInner] using hl)
    | start n a => simp [readInner] at hl
    | close n => simp [readInner] at hl
    | empty n a => simp [readInner] at hl

theorem read_push (l : List Tok) (t : Tok) :
    read ⟨l, some t⟩ = (some t, ⟨l, none⟩) := rfl

theorem read_none_inv {r r₁ : Reader} (hr : read r = (none, r₁)) :
    r₁ = ⟨[], none⟩ := by
  rcases r with ⟨toks, peeked⟩
  cases peeked with
  | some e => simp [read] at hr
  | none =>
    rcases hi : readInner toks with ⟨o, l⟩
    simp [read, hi] at hr
    rcases hr with ⟨ho, hl⟩
    have := readInner_none_nil (ho ▸ hi)
    rw [← hl, this]

theorem findBefore_of_read_some {B : Type} (f : Tok → Option B) (h : Tok → Bool)
    {r : Reader} {e : Tok} {r₁ : Reader} (hr : read r = (some e, r₁)) :
    findBefore f h r = findBeforeLoop f h e r₁.toks := by
  simp only [findBefore, hr]

theorem findBeforeLoop_none_inv {B : Type} (f : Tok → Option B) (h : Tok → Bool) :
    ∀ (n : Nat) (e : Tok) (toks : List Tok) (r' : Reader), toks.length ≤ n →
      findBeforeLoop f h e toks = (none, r') →
      r' = ⟨[], none⟩ ∨ ∃ t, r'.peeked = some t ∧ h t = true := by
  intro n
  induction n with
  | zero =>
    intro e toks r' hlen hfb
    have htoks : toks = [] := List.length_eq_zero.mp (Nat.le_zero.mp hlen)
    subst htoks
    rw [findBeforeLoop_unfold] at hfb
    by_cases hhe : h e = true
    · right
      simp only [hhe, if_true] at hfb
      have h2 : r' = (⟨[], some e⟩ : Reader) := (congrArg Prod.snd hfb).symm
      exact ⟨e, by rw [h2], hhe⟩
    · simp only [hhe] at hfb
      rw [if_neg (by simp [hhe])] at hfb
      cases hfe : f e with
      | some b => rw [hfe] at hfb; simp at hfb
      | none =>
        rw [hfe] at hfb
        left
        exact (congrArg Prod.snd hfb).symm
  | succ n ih =>
    intro e toks r' hlen hfb
    rw [findBeforeLoop_unfold] at hfb
    by_cases hhe : h e = true
    · right
      simp only [hhe, if_true] at hfb
      have h2 : r' = (⟨toks, some e⟩ : Reader) := (congrArg Prod.snd hfb).symm
      exact ⟨e, by rw [h2], hhe⟩
    · rw [if_neg (by simp [hhe])] at hfb
      cases hfe : f e with
      | some b => rw [hfe] at hfb; simp at hfb
      | none =>
        rw [hfe] at hfb
        rcases hr : readInner toks with ⟨o, t'⟩
        rw [hr] at hfb
        cases o with
        | none =>
          have ht' : t' = [] := readInner_none_nil hr
          subst ht'
          left
          exact (congrArg Prod.snd hfb).symm
        | some e' =>
          have hlt := readInner_length_lt toks hr
          exact ih e' t' r' (Nat.le_of_lt_succ (Nat.lt_of_lt_of_le hlt hlen)) hfb

theorem findBefore_none_inv {B : Type} (f : Tok → Option B) (h : Tok → Bool)
    (r r' : Reader) (hfb : findBefore f h r = (none, r')) :
    r' = ⟨[], none⟩ ∨ ∃ t, r'.peeked = some t ∧ h t = true := by
  rcases hread : read r with ⟨o, r₁⟩
  cases o with
  | none =>
    have h1 : findBefore f h r = (none, r₁) := by simp only [findBefore, hread]
    rw [h1] at hfb
    have h2 : r₁ = r' := congrArg Prod.snd hfb
    left
    rw [← h2]
    exact read_none_inv hread
  | some e =>
    rw [findBefore_of_read_some f h hread] at hfb
    exact findBeforeLoop_none_inv f h r₁.toks.length e r₁.toks r' (Nat.le_refl _) hfb

theorem readText_text_close (name : String) (c : Bytes) (rest : List Tok) :
    readText name (.text c :: .close name :: rest) 0 = some (c, rest) := by
  simp [readText]

theorem readText_close (name : String) (rest : List Tok) :
    readText name (.close name :: rest) 0 = some ([], rest) := by
  simp [readText]

end Xml

/-! ## Response-layer lemmas -/

namespace Response

open Xml

theorem nextTagWithNameLimit_ok_none {name limit : String} {r r' : Reader}
    (hg : nextTagWithNameLimit name limit r = (.ok none, r')) :
    findBefore (startMatcher name) (limitHalt limit) r = (none, r') := by
  unfold nextTagWithNameLimit at hg
  rcases hfb : findBefore (startMatcher name) (limitHalt limit) r with ⟨o, r₁⟩
  rw [hfb] at hg
  cases o with
  | none =>
    have h2 : r₁ = r' := congrArg Prod.snd hg
    rw [← h2]
  | some u =>
    cases hrt : readText name r₁.toks 0 with
    | none => simp only [hrt] at hg; simp at hg
    | some p => simp only [hrt] at hg; simp at hg

theorem nextTagWithNameLimit_error {name limit : String} {r r' : Reader}
    {e : ResponseError}
    (hg : nextTagWithNameLimit name limit r = (.error e, r')) : e = .xml := by
  unfold nextTagWithNameLimit at hg
  rcases hfb : findBefore (startMatcher name) (limitHalt limit) r with ⟨o, r₁⟩
  rw [hfb] at hg
  cases o with
  | none => simp at hg
  | some u =>
    cases hrt : readText name r₁.toks 0 with
    | none =>
      simp only [hrt] at hg
      have h2 := congrArg Prod.fst hg
      simp at h2
      first
        | exact h2
        | exact h2.symm
    | some p => simp only [hrt] at hg; simp at hg

theorem nextComment_ok_none {r r' : Reader}
    (hg : nextComment r = (.ok none, r')) :
    findBefore (startMatcher "arxiv:comment") commentHalt r = (none, r') := by
  unfold nextComment at hg
  rcases hfb : findBefore (startMatcher "arxiv:comment") commentHalt r with ⟨o, r₁⟩
  rw [hfb] at hg
  cases o with
  | none =>
    have h2 : r₁ = r' := congrArg Prod.snd hg
    rw [← h2]
  | some u =>
    cases hrt : readText "arxiv:comment" r₁.toks 0 with
    | none => simp only [hrt] at hg; simp at hg
    | some p => simp only [hrt] at hg; simp at hg

theorem nextJournalRef_ok_none {r r' : Reader}
    (hg : nextJournalRef r = (.ok none, r')) :
    findBefore (startMatcher "arxiv:journal_ref") journalRefHalt r = (none, r') := by
  unfold nextJournalRef at hg
  rcases hfb : findBefore (startMatcher "arxiv:journal_ref") journalRefHalt r with ⟨o, r₁⟩
  rw [hfb] at hg
  cases o with
  | none =>
    have h2 : r₁ = r' := congrArg Prod.snd hg
    rw [← h2]
  | some u =>
    cases hrt : readText "arxiv:journal_ref" r₁.toks 0 with
    | none => simp only [hrt] at hg; simp at hg
    | some p => simp only [hrt] at hg; simp at hg

theorem nextDoi_ok_none {r r' : Reader}
    (hg : nextDoi r = (.ok none, r')) :
    findBefore (startMatcher "arxiv:doi") doiHalt r = (none, r') := by
  unfold nextDoi at hg
  rcases hfb : findBefore (startMatcher "arxiv:doi") doiHalt r with ⟨o, r₁⟩
  rw [hfb] at hg
  cases o with
  | none =>
    have h2 : r₁ = r' := congrArg Prod.snd hg
    rw [← h2]
  | some u =>
    cases hrt : readText "arxiv:doi" r₁.toks 0 with
    | none => simp only [hrt] at hg; simp at hg
    | some p => simp only [hrt] at hg; simp at hg

theorem nextAuthor_ok_false {r r' : Reader}
    (hg : nextAuthor r = (.ok false, r')) :
    findBefore (startMatcher "author") authorHalt r = (none, r') := by
  unfold nextAuthor at hg
  rcases hfb : findBefore (startMatcher "author") authorHalt r with ⟨o, r₁⟩
  rw [hfb] at hg
  cases o with
  | none =>
    have h2 : r₁ = r' := congrArg Prod.snd hg
    rw [← h2]
  | some u => simp at hg

theorem nextTerm_ok_none {name : String} {r r' : Reader}
    (hg : nextTerm name r = (.ok none, r')) :
    findBefore (emptyMatcher name) (limitHalt "entry") r = (none, r') := by
  unfold nextTerm at hg
  rcases hfb : findBefore (emptyMatcher name) (limitHalt "entry") r with ⟨o, r₁⟩
  rw [hfb] at hg
  cases o with
  | none =>
    have h2 : r₁ = r' := congrArg Prod.snd hg
    rw [← h2]
  | some attrs => simp at hg

theorem AtBoundary_of_none {B : Type} (f : Tok → Option B) (h : Tok → Bool)
    {r r' : Reader} (hfb : findBefore f h r = (none, r')) : AtBoundary r' h := by
  rcases findBefore_none_inv f h r r' hfb with heq | ⟨t, hp, hht⟩
  · subst heq
    left
    rfl
  · right
    refine ⟨t, ?_, hht⟩
    simp [Xml.read, hp]

theorem mandPass_passes (n : String) (t : Tok) (ht : mandPass n t = true) :
    passes (startMatcher n) (limitHalt "entry") t = true := by
  cases t with
  | text s => simp [passes, Tok.isText]
  | start m a =>
    simp [mandPass] at ht
    have hb : (m == n) = false := by simp [ht]
    simp [passes, Tok.isText, startMatcher, limitHalt, hb]
  | close m =>
    simp [mandPass] at ht
    have hb : (m == "entry") = false := by simp [ht]
    simp [passes, Tok.isText, startMatcher, limitHalt, hb]
  | empty m a => simp [passes, Tok.isText, startMatcher, limitHalt]

theorem limitHalt_inv {limit : String} {t : Tok} (ht : limitHalt limit t = true) :
    t = Tok.close limit := by
  cases t with
  | close m => simp [limitHalt] at ht; rw [ht]
  | start m a => simp [limitHalt] at ht
  | empty m a => simp [limitHalt] at ht
  | text s => simp [limitHalt] at ht

theorem mandatorySpec_nextTagLimit (n : String) :
    MandatorySpec (fun r => andNotMissing (nextTagWithNameLimit n "entry" r) n) n := by
  refine ⟨?_, ?_, ?_, ?_⟩
  · intro pre attrs c rest hpre
    have hpasses : ∀ t ∈ pre, passes (startMatcher n) (limitHalt "entry") t = true :=
      fun t ht => mandPass_passes n t (List.all_eq_true.mp hpre t ht)
    have hscan : scan (startMatcher n) (limitHalt "entry")
        (Tok.start n attrs :: (Tok.text c :: Tok.close n :: rest)) =
        (some (), ⟨Tok.text c :: Tok.close n :: rest, none⟩) :=
      scan_found _ _ _ () _ rfl rfl (by simp [startMatcher])
    show andNotMissing (nextTagWithNameLimit n "entry" _) n = _
    unfold nextTagWithNameLimit
    rw [findBefore_eq_scan, scan_append_passes _ _ pre _ hpasses, hscan]
    simp [andNotMissing, readText_text_close]
  · intro pre rest hpre
    have hpasses : ∀ t ∈ pre, passes (startMatcher n) (limitHalt "entry") t = true :=
      fun t ht => mandPass_passes n t (List.all_eq_true.mp hpre t ht)
    have hscan : scan (startMatcher n) (limitHalt "entry")
        (Tok.close "entry" :: rest) = (none, ⟨rest, some (Tok.close "entry")⟩) :=
      scan_halt _ _ _ _ rfl (by simp [limitHalt])
    show andNotMissing (nextTagWithNameLimit n "entry" _) n = _
    unfold nextTagWithNameLimit
    rw [findBefore_eq_scan, scan_append_passes _ _ pre _ hpasses, hscan]
    rfl
  · intro pre hpre
    have hpasses : ∀ t ∈ pre, passes (startMatcher n) (limitHalt "entry") t = true :=
      fun t ht => mandPass_passes n t (List.all_eq_true.mp hpre t ht)
    show andNotMissing (nextTagWithNameLimit n "entry" _) n = _
    unfold nextTagWithNameLimit
    rw [findBefore_eq_scan, scan_all_passes _ _ pre hpasses]
    rfl
  · intro r t r' hg
    simp only at hg
    rcases hx : nextTagWithNameLimit n "entry" r with ⟨res, r₁⟩
    rw [hx] at hg
    cases res with
    | ok o =>
      cases o with
      | some a => simp [andNotMissing] at hg
      | none =>
        simp only [andNotMissing] at hg
        rw [Prod.mk.injEq] at hg
        obtain ⟨hgl, hgr⟩ := hg
        have htn : t = n := by
          injection hgl with h1
          injection h1 with h2
          exact h2.symm
        subst hgr
        refine ⟨htn, ?_⟩
        have hfb := nextTagWithNameLimit_ok_none hx
        rcases findBefore_none_inv _ _ _ _ hfb with heq | ⟨tk, hp, hht⟩
        · subst heq
          left
          rfl
        · right
          rw [limitHalt_inv hht] at hp
          simp [Xml.read, hp]
    | error e =>
      have he : e = .xml := nextTagWithNameLimit_error hx
      subst he
      simp [andNotMissing] at hg

/-- C5: each of the four mandatory per-record accessors scans forward
within the enclosing record, returns the text of the sought tag when it
appears before the record's closing `entry` tag, and fails with
`MissingTag` naming the field when the closing tag (left unconsumed) or
the end of input is reached first. -/
theorem mandatory_accessors_bounded_missing_tag :
    MandatorySpec nextTitle "title" ∧ MandatorySpec nextUpdated "updated" ∧
    MandatorySpec nextSummary "summary" ∧ MandatorySpec nextPublished "published" :=
  ⟨mandatorySpec_nextTagLimit "title", mandatorySpec_nextTagLimit "updated",
   mandatorySpec_nextTagLimit "summary", mandatorySpec_nextTagLimit "published"⟩

theorem startTag_immediate {name : String} {H : Tok → Bool} {r' r'' : Reader}
    {attrs : List (String × Bytes)}
    (hh : H (.start name attrs) = false)
    (hread : read r' = (some (.start name attrs), r'')) :
    findBefore (startMatcher name) H r' = (some (), ⟨r''.toks, none⟩) := by
  rw [findBefore_of_read_some _ _ hread, findBeforeLoop_unfold]
  simp [hh, startMatcher]

theorem emptyTag_immediate {name : String} {H : Tok → Bool} {r' r'' : Reader}
    {attrs : List (String × Bytes)}
    (hh : H (.empty name attrs) = false)
    (hread : read r' = (some (.empty name attrs), r'')) :
    findBefore (emptyMatcher name) H r' = (some attrs, ⟨r''.toks, none⟩) := by
  rw [findBefore_of_read_some _ _ hread, findBeforeLoop_unfold]
  simp [hh, emptyMatcher]

/-- C2: each optional accessor, on reporting the field absent
(`Ok(None)`, or `Ok(false)` for `next_author`), leaves the cursor at end
of input or exactly before a token of its halt set — the opening token
of a field the schema places after it, or the enclosing close tag —
never past it; and the accessor of such a following field, called next,
still succeeds on that field's content. -/
theorem optional_accessor_boundary_containment :
    (∀ r r', nextComment r = (.ok none, r') → AtBoundary r' commentHalt) ∧
    (∀ r r', nextJournalRef r = (.ok none, r') → AtBoundary r' journalRefHalt) ∧
    (∀ r r', nextDoi r = (.ok none, r') → AtBoundary r' doiHalt) ∧
    (∀ r r', nextCategory r = (.ok none, r') → AtBoundary r' (limitHalt "entry")) ∧
    (∀ r r', nextAuthor r = (.ok false, r') → AtBoundary r' authorHalt) ∧
    (∀ r r', nextAuthorAffiliation r = (.ok none, r') →
      AtBoundary r' (limitHalt "author")) ∧
    (∀ r r' r'' attrs c rest, nextComment r = (.ok none, r') →
      read r' = (some (.start "arxiv:journal_ref" attrs), r'') →
      r''.toks = .text c :: .close "arxiv:journal_ref" :: rest →
      nextJournalRef r' = (.ok (some c), ⟨rest, none⟩)) ∧
    (∀ r r' r'' attrs, nextComment r = (.ok none, r') →
      read r' = (some (.empty "arxiv:primary_category" attrs), r'') →
      nextPrimaryCategory r' = (.ok ⟨attrs⟩, r'')) ∧
    (∀ r r' r'' attrs, nextJournalRef r = (.ok none, r') →
      read r' = (some (.empty "arxiv:primary_category" attrs), r'') →
      nextPrimaryCategory r' = (.ok ⟨attrs⟩, r'')) ∧
    (∀ r r' r'' attrs c rest, nextDoi r = (.ok none, r') →
      read r' = (some (.start "arxiv:comment" attrs), r'') →
      r''.toks = .text c :: .close "arxiv:comment" :: rest →
      nextComment r' = (.ok (some c), ⟨rest, none⟩)) ∧
    (∀ r r' r'' attrs c rest, nextAuthor r = (.ok false, r') →
      read r' = (some (.start "arxiv:comment" attrs), r'') →
      r''.toks = .text c :: .close "arxiv:comment" :: rest →
      nextComment r' = (.ok (some c), ⟨rest, none⟩)) ∧
    (∀ r r' r'' attrs rest, nextAuthorAffiliation r = (.ok none, r') →
      read r' = (some (.close "author"), r'') →
      r''.toks = .start "author" attrs :: rest →
      nextAuthor r' = (.ok true, ⟨rest, none⟩)) := by
  refine ⟨?_, ?_, ?_, ?_, ?_, ?_, ?_, ?_, ?_, ?_, ?_, ?_⟩
  · intro r r' hg
    exact AtBoundary_of_none _ _ (nextComment_ok_none hg)
  · intro r r' hg
    exact AtBoundary_of_none _ _ (nextJournalRef_ok_none hg)
  · intro r r' hg
    exact AtBoundary_of_none _ _ (nextDoi_ok_none hg)
  · intro r r' hg
    exact AtBoundary_of_none _ _ (nextTerm_ok_none hg)
  · intro r r' hg
    exact AtBoundary_of_none _ _ (nextAuthor_ok_false hg)
  · intro r r' hg
    exact AtBoundary_of_none _ _ (nextTagWithNameLimit_ok_none hg)
  · intro r r' r'' attrs c rest _ hread htoks
    have hfb : findBefore (startMatcher "arxiv:journal_ref") journalRefHalt r' =
        (some (), ⟨r''.toks, none⟩) := startTag_immediate rfl hread
    unfold nextJournalRef
    rw [hfb]
    simp [htoks, readText_text_close]
  · intro r r' r'' attrs _ hread
    have hfb : findBefore (emptyMatcher "arxiv:primary_category") (limitHalt "entry") r' =
        (some attrs, ⟨r''.toks, none⟩) := emptyTag_immediate rfl hread
    have hp : r''.peeked = none := by
      have h0 := read_peeked_none r'
      rw [hread] at h0
      exact h0
    unfold nextPrimaryCategory nextTerm andNotMissing
    rw [hfb]
    rcases r'' with ⟨l'', p''⟩
    simp only at hp
    subst hp
    rfl
  · intro r r' r'' attrs _ hread
    have hfb : findBefore (emptyMatcher "arxiv:primary_category") (limitHalt "entry") r' =
        (some attrs, ⟨r''.toks, none⟩) := emptyTag_immediate rfl hread
    have hp : r''.peeked = none := by
      have h0 := read_peeked_none r'
      rw [hread] at h0
      exact h0
    unfold nextPrimaryCategory nextTerm andNotMissing
    rw [hfb]
    rcases r'' with ⟨l'', p''⟩
    simp only at hp
    subst hp
    rfl
  · intro r r' r'' attrs c rest _ hread htoks
    have hfb2 : findBefore (startMatcher "arxiv:comment") commentHalt r' =
        (some (), ⟨r''.toks, none⟩) := startTag_immediate rfl hread
    unfold nextComment
    rw [hfb2]
    simp [htoks, readText_text_close]
  · intro r r' r'' attrs c rest _ hread htoks
    have hfb2 : findBefore (startMatcher "arxiv:comment") commentHalt r' =
        (some (), ⟨r''.toks, none⟩) := startTag_immediate rfl hread
    unfold nextComment
    rw [hfb2]
    simp [htoks, readText_text_close]
  · intro r r' r'' attrs rest _ hread htoks
    have h1 := findBefore_of_read_some (startMatcher "author") authorHalt hread
    rw [findBeforeLoop_eq_scan _ _ r''.toks.length (Tok.close "author") r''.toks
      (Nat.le_refl _) rfl, htoks] at h1
    have h2 : scan (startMatcher "author") authorHalt
        (Tok.close "author" :: Tok.start "author" attrs :: rest) =
        (some (), ⟨rest, none⟩) := by
      rw [scan_cons_not_text _ _ (Tok.close "author") _ rfl, if_neg (by decide)]
      show scan (startMatcher "author") authorHalt
        (Tok.start "author" attrs :: rest) = _
      exact scan_found _ _ _ () _ rfl rfl (by simp [startMatcher])
    have hfb := h1.trans h2
    unfold nextAuthor
    rw [hfb]

/-- Witness for C2 at a concrete input: on a record whose next tokens
are a `journal_ref` element, `next_comment` reports the comment absent
and halts exactly before the `journal_ref` start tag, and
`next_journal_ref` then succeeds on its content. -/
theorem optional_accessor_boundary_witness :
    nextComment ⟨[Tok.start "arxiv:journal_ref" [], Tok.text [74],
        Tok.close "arxiv:journal_ref"], none⟩ =
      (.ok none, ⟨[Tok.text [74], Tok.close "arxiv:journal_ref"],
        some (Tok.start "arxiv:journal_ref" [])⟩) ∧
    nextJournalRef ⟨[Tok.text [74], Tok.close "arxiv:journal_ref"],
        some (Tok.start "arxiv:journal_ref" [])⟩ =
      (.ok (some [74]), ⟨[], none⟩) := by
  have h1 : nextComment ⟨[Tok.start "arxiv:journal_ref" [], Tok.text [74],
      Tok.close "arxiv:journal_ref"], none⟩ =
      (.ok none, ⟨[Tok.text [74], Tok.close "arxiv:journal_ref"],
        some (Tok.start "arxiv:journal_ref" [])⟩) := by
    unfold nextComment
    rw [findBefore_eq_scan,
      scan_halt _ _ (Tok.start "arxiv:journal_ref" []) _ rfl (by decide)]
  refine ⟨h1, ?_⟩
  exact optional_accessor_boundary_containment.2.2.2.2.2.2.1 _ _ _ [] [74] []
    h1 rfl rfl

/-- Witness for C5 at concrete inputs: a present `title` is returned
with the cursor after its close tag; a record closing before `updated`
yields `MissingTag "updated"` with the close tag left unconsumed. -/
theorem mandatory_accessors_witness :
    nextTitle ⟨[Tok.start "title" [], Tok.text [97], Tok.close "title"], none⟩ =
      (.ok [97], ⟨[], none⟩) ∧
    nextUpdated ⟨[Tok.empty "link" [], Tok.close "entry"], none⟩ =
      (.error (.missingTag "updated"), ⟨[], some (Tok.close "entry")⟩) :=
  ⟨mandatory_accessors_bounded_missing_tag.1.1 [] [] [97] [] rfl,
   (mandatory_accessors_bounded_missing_tag.2.1.2.1) [Tok.empty "link" []] [] rfl⟩

theorem errorsUrl_spelling : errorsUrl = strBytes "http://arxiv.org/api/errors#" := by
  decide

theorem absUrl_spelling : absUrl = strBytes "http://arxiv.org/abs/" := by
  decide

theorem notStartTag_passes (n : String) (t : Tok) (ht : notStartTag n t = true) :
    passes (startAttrsMatcher n) noHalt t = true := by
  cases t with
  | text s => simp [passes, Tok.isText]
  | start m a =>
    simp [notStartTag] at ht
    have hb : (m == n) = false := by simp [ht]
    simp [passes, Tok.isText, startAttrsMatcher, noHalt, hb]
  | close m => simp [passes, Tok.isText, startAttrsMatcher, noHalt]
  | empty m a => simp [passes, Tok.isText, startAttrsMatcher, noHalt]

theorem findRawMatchingTag_finds (name : String) (pre : List Tok)
    (attrs : List (String × Bytes)) (c : Bytes) (rest : List Tok)
    (hpre : pre.all (notStartTag name) = true) :
    findRawMatchingTag name
      ⟨pre ++ Tok.start name attrs :: Tok.text c :: Tok.close name :: rest, none⟩ =
      (.ok (some c), ⟨rest, none⟩) := by
  have hpasses : ∀ t ∈ pre, passes (startAttrsMatcher name) noHalt t = true :=
    fun t ht => notStartTag_passes name t (List.all_eq_true.mp hpre t ht)
  have hscan : scan (startAttrsMatcher name) noHalt
      (Tok.start name attrs :: (Tok.text c :: Tok.close name :: rest)) =
      (some attrs, ⟨Tok.text c :: Tok.close name :: rest, none⟩) :=
    scan_found _ _ _ attrs _ rfl rfl (by simp [startAttrsMatcher])
  unfold findRawMatchingTag findMatchingTag
  rw [findBefore_eq_scan, scan_append_passes _ _ pre _ hpasses, hscan]
  simp [readText_text_close]

theorem findTextMatchingTag_finds (name : String) (pre : List Tok)
    (attrs : List (String × Bytes)) (c : Bytes) (rest : List Tok)
    (hpre : pre.all (notStartTag name) = true) :
    findTextMatchingTag name
      ⟨pre ++ Tok.start name attrs :: Tok.text c :: Tok.close name :: rest, none⟩ =
      (.ok (some c), ⟨rest, none⟩) := by
  have hpasses : ∀ t ∈ pre, passes (startAttrsMatcher name) noHalt t = true :=
    fun t ht => notStartTag_passes name t (List.all_eq_true.mp hpre t ht)
  have hscan : scan (startAttrsMatcher name) noHalt
      (Tok.start name attrs :: (Tok.text c :: Tok.close name :: rest)) =
      (some attrs, ⟨Tok.text c :: Tok.close name :: rest, none⟩) :=
    scan_found _ _ _ attrs _ rfl rfl (by simp [startAttrsMatcher])
  unfold findTextMatchingTag findMatchingTag
  rw [findBefore_eq_scan, scan_append_passes _ _ pre _ hpasses, hscan]
  simp [readText_text_close]

theorem findRawMatchingTag_all_pass (name : String) (toks : List Tok)
    (hall : toks.all (notStartTag name) = true) :
    findRawMatchingTag name ⟨toks, none⟩ = (.ok none, ⟨[], none⟩) := by
  have hpasses : ∀ t ∈ toks, passes (startAttrsMatcher name) noHalt t = true :=
    fun t ht => notStartTag_passes name t (List.all_eq_true.mp hall t ht)
  unfold findRawMatchingTag findMatchingTag
  rw [findBefore_eq_scan, scan_all_passes _ _ toks hpasses]

theorem findRawMatchingTag_ok_none {name : String} {r r' : Reader}
    (hg : findRawMatchingTag name r = (.ok none, r')) :
    findBefore (startAttrsMatcher name) noHalt r = (none, r') := by
  unfold findRawMatchingTag findMatchingTag at hg
  rcases hfb : findBefore (startAttrsMatcher name) noHalt r with ⟨o, r₁⟩
  rw [hfb] at hg
  cases o with
  | none =>
    have h2 : r₁ = r' := congrArg Prod.snd hg
    rw [← h2]
  | some u =>
    cases hrt : readText name r₁.toks 0 with
    | none => simp only [hrt] at hg; simp at hg
    | some p => simp only [hrt] at hg; simp at hg

theorem nextId_ok_none {r r' : Reader} (hg : nextId r = (.ok none, r')) :
    findRawMatchingTag "id" r = (.ok none, r') := by
  unfold nextId at hg
  rcases hx : findRawMatchingTag "id" r with ⟨res, r₁⟩
  rw [hx] at hg
  cases res with
  | error e => simp at hg
  | ok o =>
    cases o with
    | none =>
      have h2 : r₁ = r' := congrArg Prod.snd hg
      rw [← h2]
    | some url =>
      by_cases hpref : errorsUrl.isPrefixOf url = true
      · simp only [hpref] at hg
        rcases hsum : findTextMatchingTag "summary" r₁ with ⟨sres, r₂⟩
        rw [hsum] at hg
        cases sres with
        | error e => simp at hg
        | ok so => cases so <;> simp at hg
      · have hb : List.isPrefixOf errorsUrl url = false := by
          revert hpref
          cases List.isPrefixOf errorsUrl url <;> simp
        cases hstrip : stripBytes absUrl url with
        | none => simp [hb, hstrip] at hg
        | some idb => simp [hb, hstrip] at hg

theorem nextId_ok_none_state {r r' : Reader} (hg : nextId r = (.ok none, r')) :
    r' = ⟨[], none⟩ := by
  have h1 := findRawMatchingTag_ok_none (nextId_ok_none hg)
  rcases findBefore_none_inv _ _ _ _ h1 with heq | ⟨t, _, hht⟩
  · exact heq
  · simp [noHalt] at hht

theorem stripBytes_not_errors {u idb : Bytes}
    (hs : stripBytes absUrl u = some idb) : errorsUrl.isPrefixOf u = false := by
  unfold stripBytes at hs
  by_cases hp : absUrl.isPrefixOf u
  · have hpre : absUrl <+: u := List.isPrefixOf_iff_prefix.mp hp
    rcases hpre with ⟨t, ht⟩
    rw [← ht]
    simp [absUrl, errorsUrl, List.isPrefixOf]
  · simp [hp] at hs

/-- C10: `next_id` scans with no halt predicate: every token between
the cursor and the next `id` opening tag is consumed and discarded
(entries lacking an `id` tag among them), and `None` is returned only
with the whole input consumed. -/
theorem next_id_no_halt_skips_idless_entries :
    (∀ r r', nextId r = (.ok none, r') → r' = ⟨[], none⟩) ∧
    (∀ pre attrs u idb rest, pre.all (notStartTag "id") = true →
      stripBytes absUrl u = some idb →
      nextId ⟨pre ++ Tok.start "id" attrs :: Tok.text u :: Tok.close "id" :: rest,
          none⟩ =
        (.ok (some idb), ⟨rest, none⟩)) ∧
    (∀ toks, toks.all (notStartTag "id") = true →
      nextId ⟨toks, none⟩ = (.ok none, ⟨[], none⟩)) := by
  refine ⟨?_, ?_, ?_⟩
  · intro r r' hg
    exact nextId_ok_none_state hg
  · intro pre attrs u idb rest hpre hstrip
    unfold nextId
    rw [findRawMatchingTag_finds "id" pre attrs u rest hpre]
    simp [stripBytes_not_errors hstrip, hstrip]
  · intro toks hall
    unfold nextId
    rw [findRawMatchingTag_all_pass "id" toks hall]

/-- C4: `next_id` treats an `id` whose content bears the reserved error
prefix as an API-reported error carrying the feed's `summary` text;
otherwise it strips the abstract URL prefix and returns the remainder;
content matching neither prefix is an error; and `None` is returned
exactly at end of input. -/
theorem next_id_error_prefix_handling :
    (∀ pre attrs u mid sattrs c rest₂,
      pre.all (notStartTag "id") = true →
      errorsUrl.isPrefixOf u = true →
      mid.all (notStartTag "summary") = true →
      nextId ⟨pre ++ Tok.start "id" attrs :: Tok.text u :: Tok.close "id" ::
          (mid ++ Tok.start "summary" sattrs :: Tok.text c ::
            Tok.close "summary" :: rest₂), none⟩ =
        (.error (.arxiv c), ⟨rest₂, none⟩)) ∧
    (∀ pre attrs u idb rest, pre.all (notStartTag "id") = true →
      stripBytes absUrl u = some idb →
      nextId ⟨pre ++ Tok.start "id" attrs :: Tok.text u :: Tok.close "id" :: rest,
          none⟩ =
        (.ok (some idb), ⟨rest, none⟩)) ∧
    (∀ pre attrs u rest, pre.all (notStartTag "id") = true →
      errorsUrl.isPrefixOf u = false → stripBytes absUrl u = none →
      nextId ⟨pre ++ Tok.start "id" attrs :: Tok.text u :: Tok.close "id" :: rest,
          none⟩ =
        (.error (.invalidHeader (idUnexpectedMsg u)), ⟨rest, none⟩)) ∧
    (∀ r r', nextId r = (.ok none, r') → r' = ⟨[], none⟩) ∧
    (∀ toks, toks.all (notStartTag "id") = true →
      nextId ⟨toks, none⟩ = (.ok none, ⟨[], none⟩)) := by
  refine ⟨?_, ?_, ?_, ?_, ?_⟩
  · intro pre attrs u mid sattrs c rest₂ hpre hpref hmid
    unfold nextId
    rw [findRawMatchingTag_finds "id" pre attrs u _ hpre]
    simp [hpref, findTextMatchingTag_finds "summary" mid sattrs c rest₂ hmid]
  · intro pre attrs u idb rest hpre hstrip
    unfold nextId
    rw [findRawMatchingTag_finds "id" pre attrs u rest hpre]
    simp [stripBytes_not_errors hstrip, hstrip]
  · intro pre attrs u rest hpre hpref hstrip
    unfold nextId
    rw [findRawMatchingTag_finds "id" pre attrs u rest hpre]
    simp [hpref, hstrip]
  · intro r r' hg
    exact nextId_ok_none_state hg
  · intro toks hall
    unfold nextId
    rw [findRawMatchingTag_all_pass "id" toks hall]

/-- Witness for C10 at a concrete input: a whole entry lacking an `id`
tag is silently consumed and the following entry's identifier is
returned. -/
theorem next_id_skip_witness :
    nextId ⟨[Tok.start "entry" [], Tok.start "title" [], Tok.text [84],
      Tok.close "title", Tok.close "entry", Tok.start "entry" [],
      Tok.start "id" [], Tok.text (absUrl ++ [49]), Tok.close "id"], none⟩ =
      (.ok (some [49]), ⟨[], none⟩) :=
  next_id_no_halt_skips_idless_entries.2.1
    [Tok.start "entry" [], Tok.start "title" [], Tok.text [84],
      Tok.close "title", Tok.close "entry", Tok.start "entry" []]
    [] (absUrl ++ [49]) [49] [] (by decide) (by decide)

/-- Witness for C4 at a concrete input: an `id` bearing the reserved
error prefix makes `next_id` fail with the API-reported error carrying
the `summary` text. -/
theorem next_id_error_witness :
    nextId ⟨[Tok.start "id" [], Tok.text errorsUrl, Tok.close "id",
      Tok.start "summary" [], Tok.text [69], Tok.close "summary"], none⟩ =
      (.error (.arxiv [69]), ⟨[], none⟩) :=
  next_id_error_prefix_handling.1 [] [] errorsUrl [] [] [69] [] rfl
    (by decide) rfl

theorem findTextMatchingTag_skip (tag : String) (t : Tok) (l : List Tok)
    (hp : passes (startAttrsMatcher tag) noHalt t = true) :
    findTextMatchingTag tag ⟨t :: l, none⟩ = findTextMatchingTag tag ⟨l, none⟩ := by
  have h1 : scan (startAttrsMatcher tag) noHalt (t :: l) =
      scan (startAttrsMatcher tag) noHalt l :=
    scan_append_passes _ _ [t] l (by simpa using hp)
  unfold findTextMatchingTag findMatchingTag
  rw [findBefore_eq_scan, findBefore_eq_scan, h1]

theorem findTextMatchingTag_spec (tag : String) :
    ∀ toks : List Tok,
      findTextMatchingTag tag ⟨toks, none⟩ =
        match specTagText tag toks with
        | .ok (some (s, rem)) => (.ok (some s), ⟨rem, none⟩)
        | .ok none => (.ok none, ⟨[], none⟩)
        | .error e => (.error e, ⟨[], none⟩) := by
  intro toks
  induction toks with
  | nil =>
    unfold findTextMatchingTag findMatchingTag specTagText firstTag
    rw [findBefore_eq_scan]
    rfl
  | cons t l ih =>
    cases t with
    | text s =>
      rw [findTextMatchingTag_skip tag _ l (by simp [passes, Tok.isText]), ih]
      rfl
    | close n =>
      rw [findTextMatchingTag_skip tag _ l
        (by simp [passes, Tok.isText, startAttrsMatcher, noHalt]), ih]
      rfl
    | empty n attrs =>
      rw [findTextMatchingTag_skip tag _ l
        (by simp [passes, Tok.isText, startAttrsMatcher, noHalt]), ih]
      rfl
    | start n attrs =>
      by_cases hn : (n == tag) = true
      · have he : n = tag := by simpa using hn
        subst he
        unfold findTextMatchingTag findMatchingTag
        rw [findBefore_eq_scan,
          scan_found _ _ (Tok.start n attrs) attrs l rfl rfl
            (by simp [startAttrsMatcher])]
        unfold specTagText firstTag
        simp only [hn, if_true]
        cases hrt : readText n l 0 with
        | none => simp [hrt]
        | some p => rcases p with ⟨s, rem⟩; simp [hrt]
      · have hb : (n == tag) = false := by
          revert hn
          cases n == tag <;> simp
        have hft : firstTag tag (Tok.start n attrs :: l) = firstTag tag l := by
          simp only [firstTag]
          rw [if_neg (by simp [hb])]
        have hsp : specTagText tag (Tok.start n attrs :: l) = specTagText tag l := by
          unfold specTagText
          rw [hft]
        rw [findTextMatchingTag_skip tag _ l
          (by simp [passes, Tok.isText, startAttrsMatcher, noHalt, hb]), ih, hsp]

theorem readUpdated_spec {D : Type} (parseDate : Bytes → Option D)
    (toks : List Tok) :
    readUpdated parseDate ⟨toks, none⟩ =
      match specTagText "updated" toks with
      | .error e => (.error e, ⟨[], none⟩)
      | .ok none => (.error (.missingTag "updated"), ⟨[], none⟩)
      | .ok (some (s, rem)) =>
        match parseDate s with
        | some d => (.ok d, ⟨rem, none⟩)
        | none => (.error .date, ⟨rem, none⟩) := by
  unfold readUpdated
  rw [findTextMatchingTag_spec]
  rcases hu : specTagText "updated" toks with e | o
  · rfl
  · cases o with
    | none => rfl
    | some p =>
      rcases p with ⟨s, rem⟩
      cases parseDate s <;> rfl

theorem readTagU64_spec (name : String) (toks : List Tok) :
    readTagU64 name ⟨toks, none⟩ =
      match specTagText name toks with
      | .error e => (.error e, ⟨[], none⟩)
      | .ok none => (.error (.missingTag name), ⟨[], none⟩)
      | .ok (some (s, rem)) =>
        match parseU64 s with
        | some v => (.ok v, ⟨rem, none⟩)
        | none =>
          (.error (.invalidHeader "expected pagination to be non-negative integer"),
            ⟨rem, none⟩) := by
  unfold readTagU64
  rw [findTextMatchingTag_spec]
  rcases hu : specTagText name toks with e | o
  · rfl
  · cases o with
    | none => rfl
    | some p =>
      rcases p with ⟨s, rem⟩
      cases parseU64 s <;> rfl

/-- C3: `init` parses the header by unbounded forward scans exactly as
the specification describes: `MissingTag` names any required header tag
that never appears, a pagination tag whose text is not a non-negative
`u64` gives `InvalidHeader`, an `updated` text the date parser rejects
gives the date error, and on success the parsed timestamp and the
`Pagination` triple are returned with the cursor exactly at the suffix
following the `opensearch:itemsPerPage` element (before the first
entry). -/
theorem bindStep_ok {E α β : Type} (a : α) (r : Reader)
    (k : α → Reader → Except E β × Reader) :
    bindStep (.ok a, r) k = k a r := rfl

theorem bindStep_error {E α β : Type} (e : E) (r : Reader)
    (k : α → Reader → Except E β × Reader) :
    bindStep ((.error e : Except E α), r) k = (.error e, r) := rfl

theorem init_parses_header_as_specified {D : Type}
    (parseDate : Bytes → Option D) (toks : List Tok) :
    ((init parseDate toks).1 =
      (initSpec parseDate toks).map (fun x => (x.1, x.2.1))) ∧
    (∀ d p rest, initSpec parseDate toks = .ok (d, p, rest) →
      init parseDate toks = (.ok (d, p), ⟨rest, none⟩)) := by
  unfold init initSpec readPagination specU64
  rw [readUpdated_spec]
  rcases hu : specTagText "updated" toks with e | o
  · exact ⟨rfl, by intro d p rest h; simp at h⟩
  cases o with
  | none => exact ⟨rfl, by intro d p rest h; simp at h⟩
  | some pr =>
    rcases pr with ⟨s, t1⟩
    simp only []
    cases hd : parseDate s with
    | none => exact ⟨rfl, by intro d p rest h; simp at h⟩
    | some d0 =>
      simp only [bindStep_ok]
      rw [readTagU64_spec]
      rcases h1 : specTagText "opensearch:totalResults" t1 with e | o1
      · exact ⟨rfl, by intro d p rest h; simp at h⟩
      cases o1 with
      | none => exact ⟨rfl, by intro d p rest h; simp at h⟩
      | some pr1 =>
        rcases pr1 with ⟨s1, t2⟩
        simp only []
        cases hp1 : parseU64 s1 with
        | none => exact ⟨rfl, by intro d p rest h; simp at h⟩
        | some tr =>
          simp only [bindStep_ok]
          rw [readTagU64_spec]
          rcases h2 : specTagText "opensearch:startIndex" t2 with e | o2
          · exact ⟨rfl, by intro d p rest h; simp at h⟩
          cases o2 with
          | none => exact ⟨rfl, by intro d p rest h; simp at h⟩
          | some pr2 =>
            rcases pr2 with ⟨s2, t3⟩
            simp only []
            cases hp2 : parseU64 s2 with
            | none => exact ⟨rfl, by intro d p rest h; simp at h⟩
            | some si =>
              simp only [bindStep_ok]
              rw [readTagU64_spec]
              rcases h3 : specTagText "opensearch:itemsPerPage" t3 with e | o3
              · exact ⟨rfl, by intro d p rest h; simp at h⟩
              cases o3 with
              | none => exact ⟨rfl, by intro d p rest h; simp at h⟩
              | some pr3 =>
                rcases pr3 with ⟨s3, t4⟩
                simp only []
                cases hp3 : parseU64 s3 with
                | none => exact ⟨rfl, by intro d p rest h; simp at h⟩
                | some ipp =>
                  refine ⟨rfl, ?_⟩
                  intro d p rest h
                  simp at h
                  rw [← h.1, ← h.2.1, ← h.2.2]
                  rfl

/-- Witness for C3 at a concrete input: a header with
`totalResults=2`, `startIndex=0`, `itemsPerPage=1` parses to the
corresponding `Pagination`, with the cursor right after the header. -/
theorem init_header_witness :
    init (fun s => if s = [50, 48] then some [50, 48] else none)
      [Tok.start "updated" [], Tok.text [50, 48], Tok.close "updated",
       Tok.start "opensearch:totalResults" [], Tok.text [50],
       Tok.close "opensearch:totalResults",
       Tok.start "opensearch:startIndex" [], Tok.text [48],
       Tok.close "opensearch:startIndex",
       Tok.start "opensearch:itemsPerPage" [], Tok.text [49],
       Tok.close "opensearch:itemsPerPage",
       Tok.start "entry" []] =
      (.ok ([50, 48], ⟨2, 0, 1⟩), ⟨[Tok.start "entry" []], none⟩) :=
  (init_parses_header_as_specified _ _).2 [50, 48] ⟨2, 0, 1⟩
    [Tok.start "entry" []] (by rfl)

end Response

namespace De

open Xml Response

theorem nextKeySeedLoop_irrel : ∀ (n m : Nat) (s : EntryMapAccess),
    11 ≤ s.idx + n → 11 ≤ s.idx + m → nextKeySeedLoop n s = nextKeySeedLoop m s := by
  intro n
  induction n with
  | zero =>
    intro m s hn hm
    have hi : ¬ s.idx < 11 := by omega
    cases m with
    | zero => rfl
    | succ m =>
      show (none, s) = if s.idx < 11 then _ else (none, s)
      rw [if_neg hi]
  | succ n ih =>
    intro m s hn hm
    cases m with
    | zero =>
      have hi : ¬ s.idx < 11 := by omega
      show (if s.idx < 11 then _ else (none, s)) = (none, s)
      rw [if_neg hi]
    | succ m =>
      by_cases hi : s.idx < 11
      · show (if s.idx < 11 then
            (if s.fields.contains (ALLOWED_FIELDS.getD s.idx "") then
              (some (ALLOWED_FIELDS.getD s.idx ""), s)
            else nextKeySeedLoop n { s with idx := s.idx + 1 })
          else (none, s)) =
          (if s.idx < 11 then
            (if s.fields.contains (ALLOWED_FIELDS.getD s.idx "") then
              (some (ALLOWED_FIELDS.getD s.idx ""), s)
            else nextKeySeedLoop m { s with idx := s.idx + 1 })
          else (none, s))
        rw [if_pos hi, if_pos hi]
        cases hcc : s.fields.contains (ALLOWED_FIELDS.getD s.idx "") with
        | true => rfl
        | false =>
          exact ih m { s with idx := s.idx + 1 } (by simp; omega) (by simp; omega)
      · show (if s.idx < 11 then _ else (none, s)) =
          if s.idx < 11 then _ else (none, s)
        rw [if_neg hi, if_neg hi]

theorem nextKeySeed_unfold (s : EntryMapAccess) :
    nextKeySeed s =
      if s.idx < 11 then
        (if s.fields.contains (ALLOWED_FIELDS.getD s.idx "") then
          (some (ALLOWED_FIELDS.getD s.idx ""), s)
        else nextKeySeed { s with idx := s.idx + 1 })
      else (none, s) := by
  have h1 : nextKeySeed s =
      (if s.idx < 11 then
        (if s.fields.contains (ALLOWED_FIELDS.getD s.idx "") then
          (some (ALLOWED_FIELDS.getD s.idx ""), s)
        else nextKeySeedLoop 10 { s with idx := s.idx + 1 })
      else (none, s)) := rfl
  rw [h1]
  by_cases hi : s.idx < 11
  · rw [if_pos hi, if_pos hi]
    cases hcc : s.fields.contains (ALLOWED_FIELDS.getD s.idx "") with
    | true => rfl
    | false =>
      exact nextKeySeedLoop_irrel 10 11 { s with idx := s.idx + 1 }
        (by simp) (by simp)
  · rw [if_neg hi, if_neg hi]

theorem nextKeySeed_hit {id : Option Bytes} {fields : List String} {i : Nat}
    (hi : i < 11) (hc : fields.contains (ALLOWED_FIELDS.getD i "") = true) :
    nextKeySeed ⟨id, fields, i⟩ = (some (ALLOWED_FIELDS.getD i ""), ⟨id, fields, i⟩) := by
  rw [nextKeySeed_unfold]
  simp only []
  rw [if_pos hi, if_pos hc]

theorem nextKeySeed_miss {id : Option Bytes} {fields : List String} {i : Nat}
    (hi : i < 11) (hc : fields.contains (ALLOWED_FIELDS.getD i "") = false) :
    nextKeySeed ⟨id, fields, i⟩ = nextKeySeed ⟨id, fields, i + 1⟩ := by
  have hnc : ¬ (fields.contains (ALLOWED_FIELDS.getD i "") = true) := by
    intro hcon
    rw [hc] at hcon
    exact Bool.false_ne_true hcon
  rw [nextKeySeed_unfold]
  simp only []
  rw [if_pos hi, if_neg hnc]

theorem nextKeySeed_stop {id : Option Bytes} {fields : List String} {i : Nat}
    (hi : ¬ i < 11) :
    nextKeySeed ⟨id, fields, i⟩ = (none, ⟨id, fields, i⟩) := by
  rw [nextKeySeed_unfold]
  simp only []
  rw [if_neg hi]

theorem nextKeySeed_eq : ∀ (n i : Nat) (id : Option Bytes) (fields : List String),
    11 ≤ i + n →
    ((filterRange i fields = [] → (nextKeySeed ⟨id, fields, i⟩).1 = none) ∧
     (∀ j js, filterRange i fields = j :: js →
       nextKeySeed ⟨id, fields, i⟩ = (some (ALLOWED_FIELDS.getD j ""), ⟨id, fields, j⟩) ∧
       js = filterRange (j + 1) fields ∧ i ≤ j ∧ j < 11)) := by
  intro n
  induction n with
  | zero =>
    intro i id fields hle
    have hi : ¬ i < 11 := by omega
    have h0 : 11 - i = 0 := by omega
    constructor
    · intro _
      rw [nextKeySeed_stop hi]
    · intro j js hf
      unfold filterRange at hf
      rw [h0] at hf
      simp at hf
  | succ n ih =>
    intro i id fields hle
    by_cases hi : i < 11
    · have hrange : List.range' i (11 - i) = i :: List.range' (i + 1) (11 - (i + 1)) := by
        have h1 : 11 - i = (11 - (i + 1)) + 1 := by omega
        rw [h1, List.range'_succ]
      cases hc : fields.contains (ALLOWED_FIELDS.getD i "") with
      | true =>
        have hf : filterRange i fields =
            i :: filterRange (i + 1) fields := by
          unfold filterRange
          rw [hrange, List.filter_cons, if_pos hc]
        constructor
        · intro habs
          rw [hf] at habs
          simp at habs
        · intro j js hjs
          rw [hf] at hjs
          injection hjs with hj hjs2
          subst hj
          exact ⟨nextKeySeed_hit hi hc, hjs2.symm, le_refl _, hi⟩
      | false =>
        have hf : filterRange i fields = filterRange (i + 1) fields := by
          have hnc : ¬ (fields.contains (ALLOWED_FIELDS.getD i "") = true) := by
            intro hcon
            rw [hc] at hcon
            exact Bool.false_ne_true hcon
          unfold filterRange
          rw [hrange, List.filter_cons, if_neg hnc]
        have hstep : nextKeySeed (⟨id, fields, i⟩ : EntryMapAccess) =
            nextKeySeed ⟨id, fields, i + 1⟩ := nextKeySeed_miss hi hc
        have hih := ih (i + 1) id fields (by omega)
        constructor
        · intro habs
          rw [hstep]
          exact hih.1 (hf ▸ habs)
        · intro j js hjs
          rw [hstep]
          have hres := hih.2 j js (hf ▸ hjs)
          exact ⟨hres.1, hres.2.1, by omega, hres.2.2.2⟩
    · have h0 : 11 - i = 0 := by omega
      constructor
      · intro _
        rw [nextKeySeed_stop hi]
      · intro j js hjs
        unfold filterRange at hjs
        rw [h0] at hjs
        simp at hjs

theorem nextValueSeed_ok_state {s : EntryMapAccess} {r : Reader}
    {v : ValueDeser} {s₂ : EntryMapAccess} {r₂ : Reader}
    (h : nextValueSeed s r = (.ok v, s₂, r₂)) :
    s₂ = { s with idx := s.idx + 1 } := by
  rcases s with ⟨sid, sf, idx⟩
  unfold nextValueSeed at h
  rcases idx with _ | _ | _ | _ | _ | _ | _ | _ | _ | _ | _ | n
  · cases sid with
    | some b =>
      injection h with h1 h2
      injection h2 with h2 h3
      exact h2.symm
    | none => simp at h
  all_goals first
    | (injection h with h1 h2
       injection h2 with h2 h3
       exact h2.symm)
    | (rcases hpc : nextPrimaryCategory r with ⟨res, r₁⟩
       rw [hpc] at h
       cases res with
       | ok t =>
         injection h with h1 h2
         injection h2 with h2 h3
         exact h2.symm
       | error e => simp at h)
    | simp at h

theorem entryMapRun_step (fuel : Nat) (s : EntryMapAccess) (r : Reader)
    {k : String} {s₁ : EntryMapAccess}
    (hk : nextKeySeed s = (some k, s₁)) :
    entryMapRun (fuel + 1) s r =
      match nextValueSeed s₁ r with
      | (.ok _, s₂, r₂) =>
        ((k, s₁.idx) :: (entryMapRun fuel s₂ r₂).1, (entryMapRun fuel s₂ r₂).2)
      | (.error e, _, _) => ([(k, s₁.idx)], some e) := by
  have h1 : entryMapRun (fuel + 1) s r =
      (match nextKeySeed s with
       | (none, _) => ([], none)
       | (some k, s₁) =>
         match nextValueSeed s₁ r with
         | (.ok _, s₂, r₂) =>
           ((k, s₁.idx) :: (entryMapRun fuel s₂ r₂).1, (entryMapRun fuel s₂ r₂).2)
         | (.error e, _, _) => ([(k, s₁.idx)], some e)) := rfl
  rw [h1, hk]

theorem entryMapRun_none (fuel : Nat) (s : EntryMapAccess) (r : Reader)
    (hk : (nextKeySeed s).1 = none) :
    entryMapRun (fuel + 1) s r = ([], none) := by
  have h1 : entryMapRun (fuel + 1) s r =
      (match nextKeySeed s with
       | (none, _) => ([], none)
       | (some k, s₁) =>
         match nextValueSeed s₁ r with
         | (.ok _, s₂, r₂) =>
           ((k, s₁.idx) :: (entryMapRun fuel s₂ r₂).1, (entryMapRun fuel s₂ r₂).2)
         | (.error e, _, _) => ([(k, s₁.idx)], some e)) := rfl
  rw [h1]
  rcases hks : nextKeySeed s with ⟨o, s₁⟩
  rw [hks] at hk
  simp at hk
  subst hk
  rfl

theorem entryMapRun_keys : ∀ (fuel i : Nat) (id : Option Bytes)
    (fields : List String) (r : Reader),
    11 ≤ i + fuel →
    (entryMapRun fuel ⟨id, fields, i⟩ r).2 = none →
    (entryMapRun fuel ⟨id, fields, i⟩ r).1 =
      (filterRange i fields).map (fun j => (ALLOWED_FIELDS.getD j "", j)) := by
  intro fuel
  induction fuel with
  | zero =>
    intro i id fields r hle _
    have h0 : 11 - i = 0 := by omega
    unfold filterRange
    rw [h0]
    rfl
  | succ fuel ih =>
    intro i id fields r hle h2
    rcases hfil : filterRange i fields with _ | ⟨j, js⟩
    · have hk1 := (nextKeySeed_eq (fuel + 1) i id fields hle).1 hfil
      rw [entryMapRun_none fuel ⟨id, fields, i⟩ r hk1]
      rfl
    · obtain ⟨hkeq, hjs, hij, hj11⟩ :=
        (nextKeySeed_eq (fuel + 1) i id fields hle).2 j js hfil
      rw [entryMapRun_step fuel ⟨id, fields, i⟩ r hkeq] at h2 ⊢
      rcases hv : nextValueSeed ⟨id, fields, j⟩ r with ⟨res, s₂, r₂⟩
      rw [hv] at h2
      cases res with
      | error e => simp at h2
      | ok v =>
        have hs2 : s₂ = ⟨id, fields, j + 1⟩ := nextValueSeed_ok_state hv
        subst hs2
        simp only [] at h2 ⊢
        rw [ih (j + 1) id fields r₂ (by omega) h2, List.map_cons, hjs]

theorem filterRange_congr (i : Nat) (fields fields' : List String)
    (hagree : ∀ nm, fields.contains nm = fields'.contains nm) :
    filterRange i fields = filterRange i fields' := by
  unfold filterRange
  apply List.filter_congr
  intro j _
  exact hagree _

/-- C7: the per-record map adapter yields keys by walking the fixed
11-entry allowed-field table in strictly increasing index order,
skipping exactly the entries the target did not request; each yielded
key is paired with the table index its value is dispatched on, so the
keys offered and the accessor invocations occur in table order
regardless of the order in which the caller declared its fields. -/
theorem entry_map_walks_allowed_fields_in_order :
    (∀ (fields : List String) (id : Option Bytes) (r : Reader),
      (entryMapRun 11 ⟨id, fields, 0⟩ r).2 = none →
      (entryMapRun 11 ⟨id, fields, 0⟩ r).1 =
        (filterRange 0 fields).map (fun j => (ALLOWED_FIELDS.getD j "", j))) ∧
    (∀ (fields fields' : List String) (id id' : Option Bytes) (r r' : Reader),
      (∀ nm, fields.contains nm = fields'.contains nm) →
      (entryMapRun 11 ⟨id, fields, 0⟩ r).2 = none →
      (entryMapRun 11 ⟨id', fields', 0⟩ r').2 = none →
      (entryMapRun 11 ⟨id, fields, 0⟩ r).1 =
        (entryMapRun 11 ⟨id', fields', 0⟩ r').1) := by
  constructor
  · intro fields id r h2
    exact entryMapRun_keys 11 0 id fields r (by omega) h2
  · intro fields fields' id id' r r' hagree h2 h2'
    rw [entryMapRun_keys 11 0 id fields r (by omega) h2,
      entryMapRun_keys 11 0 id' fields' r' (by omega) h2',
      filterRange_congr 0 fields fields' hagree]

/-- Witness for C7 at a concrete target: the fields declared in the
order `title, doi, summary` are offered as keys in table order
`title (1), summary (3), doi (10)`. -/
theorem entry_map_order_witness :
    (entryMapRun 11 ⟨none, ["title", "doi", "summary"], 0⟩ ⟨[], none⟩).2 = none ∧
    (entryMapRun 11 ⟨none, ["title", "doi", "summary"], 0⟩ ⟨[], none⟩).1 =
      (filterRange 0 ["title", "doi", "summary"]).map
        (fun j => (ALLOWED_FIELDS.getD j "", j)) :=
  ⟨by rfl, entry_map_walks_allowed_fields_in_order.1
    ["title", "doi", "summary"] none ⟨[], none⟩ (by rfl)⟩

/-- C8: the record identifier is offered either as the map key (map
mode hands the per-record access no stored identifier) or as the `id`
field (sequence mode stores it), never both: requesting the `id` field
after the identifier was consumed as the map key fails with a
logic-error message distinct from the absent-field error
`MissingTag`. -/
theorem id_offered_as_key_xor_field :
    (∀ fields, (mapValueEntryAccess fields).id = none) ∧
    (∀ i fields, (seqElementEntryAccess i fields).id = some i) ∧
    (∀ (s : EntryMapAccess) (r : Reader), s.idx = 0 → s.id = none →
      (nextValueSeed s r).1 =
        .error (.custom "`id` tag was already deserialized as the map key")) ∧
    (∀ (s : EntryMapAccess) (r : Reader) (b : Bytes), s.idx = 0 → s.id = some b →
      (nextValueSeed s r).1 = .ok (.idDe b)) ∧
    (∀ t, (ResponseError.custom "`id` tag was already deserialized as the map key") ≠
      ResponseError.missingTag t) := by
  refine ⟨fun _ => rfl, fun _ _ => rfl, ?_, ?_, ?_⟩
  · intro s r h0 hid
    rcases s with ⟨sid, sf, idx⟩
    simp only [] at h0 hid
    subst h0
    subst hid
    rfl
  · intro s r b h0 hid
    rcases s with ⟨sid, sf, idx⟩
    simp only [] at h0 hid
    subst h0
    subst hid
    rfl
  · intro t h
    exact ResponseError.noConfusion h

/-- Witness for C8: a map-mode record access rejects the `id` field
with the logic-error message, while a sequence-mode access serves the
stored identifier. -/
theorem id_key_field_witness :
    (nextValueSeed (mapValueEntryAccess ["id"]) ⟨[], none⟩).1 =
      .error (.custom "`id` tag was already deserialized as the map key") ∧
    (nextValueSeed (seqElementEntryAccess [49] ["id"]) ⟨[], none⟩).1 =
      .ok (.idDe [49]) :=
  ⟨id_offered_as_key_xor_field.2.2.1 (mapValueEntryAccess ["id"]) ⟨[], none⟩ rfl rfl,
   id_offered_as_key_xor_field.2.2.2.1 (seqElementEntryAccess [49] ["id"]) ⟨[], none⟩
     [49] rfl rfl⟩

theorem nextId_strip (pre : List Tok) (attrs : List (String × Bytes))
    (u idb : Bytes) (rest : List Tok)
    (hpre : pre.all (notStartTag "id") = true)
    (hstrip : stripBytes absUrl u = some idb) :
    nextId ⟨pre ++ Tok.start "id" attrs :: Tok.text u :: Tok.close "id" :: rest,
        none⟩ =
      (.ok (some idb), ⟨rest, none⟩) := by
  unfold nextId
  rw [findRawMatchingTag_finds "id" pre attrs u rest hpre]
  simp [stripBytes_not_errors hstrip, hstrip]

/-- C6: decoding the record list as an `Option` shape behaves as at
most one sequence element: with no record it yields the `visit_none`
value, with exactly one record it decodes that record, and when a
second `next_id` succeeds after the first record was decoded it fails
with `TrailingEntries`. -/
theorem deserialize_option_at_most_one :
    (∀ (α : Type) (visitSome : Bytes → Reader → Except ResponseError α × Reader)
       (visitNone : α) (toks : List Tok),
      toks.all (notStartTag "id") = true →
      deserializeOption visitSome visitNone ⟨toks, none⟩ =
        (.ok visitNone, ⟨[], none⟩)) ∧
    (∀ (α : Type) (visitSome : Bytes → Reader → Except ResponseError α × Reader)
       (visitNone : α) (r : Reader) (i : Bytes) (r₁ : Reader)
       (val : Except ResponseError α) (r₂ r₃ : Reader),
      nextId r = (.ok (some i), r₁) →
      visitSome i r₁ = (val, r₂) →
      nextId r₂ = (.ok none, r₃) →
      deserializeOption visitSome visitNone r = (val, r₃)) ∧
    (∀ (α : Type) (visitSome : Bytes → Reader → Except ResponseError α × Reader)
       (visitNone : α) (r : Reader) (i : Bytes) (r₁ : Reader)
       (val : Except ResponseError α) (r₂ : Reader) (j : Bytes) (r₃ : Reader),
      nextId r = (.ok (some i), r₁) →
      visitSome i r₁ = (val, r₂) →
      nextId r₂ = (.ok (some j), r₃) →
      deserializeOption visitSome visitNone r =
        (.error .trailingEntries, r₃)) := by
  refine ⟨?_, ?_, ?_⟩
  · intro α visitSome visitNone toks hall
    have hnid : nextId ⟨toks, none⟩ = (.ok none, ⟨[], none⟩) := by
      unfold nextId
      rw [findRawMatchingTag_all_pass "id" toks hall]
    unfold deserializeOption
    rw [hnid]
  · intro α visitSome visitNone r i r₁ val r₂ r₃ h1 h2 h3
    unfold deserializeOption
    rw [h1]
    simp only []
    rw [h2]
    simp only []
    rw [h3]
  · intro α visitSome visitNone r i r₁ val r₂ j r₃ h1 h2 h3
    unfold deserializeOption
    rw [h1]
    simp only []
    rw [h2]
    simp only []
    rw [h3]

/-- Witness for C6 at a concrete input with two records: decoding as an
`Option` shape fails with `TrailingEntries`. -/
theorem deserialize_option_witness :
    deserializeOption (fun i r => (Except.ok i, r)) ([] : Bytes)
      ⟨[Tok.start "id" [], Tok.text (absUrl ++ [49]), Tok.close "id",
        Tok.start "id" [], Tok.text (absUrl ++ [50]), Tok.close "id"], none⟩ =
      (.error .trailingEntries, ⟨[], none⟩) :=
  deserialize_option_at_most_one.2.2 Bytes (fun i r => (Except.ok i, r)) []
    ⟨[Tok.start "id" [], Tok.text (absUrl ++ [49]), Tok.close "id",
      Tok.start "id" [], Tok.text (absUrl ++ [50]), Tok.close "id"], none⟩
    [49]
    ⟨[Tok.start "id" [], Tok.text (absUrl ++ [50]), Tok.close "id"], none⟩
    (.ok [49])
    ⟨[Tok.start "id" [], Tok.text (absUrl ++ [50]), Tok.close "id"], none⟩
    [50] ⟨[], none⟩
    (nextId_strip [] [] (absUrl ++ [49]) [49]
      [Tok.start "id" [], Tok.text (absUrl ++ [50]), Tok.close "id"]
      (by decide) (by decide))
    rfl
    (nextId_strip [] [] (absUrl ++ [50]) [50] [] (by decide) (by decide))

/-- C9 counterexample: the byte slice `[48, 57, 49, 255, 46, 48, 48,
48, 49]` (a new-style identifier pattern with the invalid byte `255` in
the month position) is accepted by `ArticleId::parse_bytes` — its month
guard compares `m1` with itself instead of `m2` — yet the string
materialization of the same bytes fails UTF-8 validation instead of
returning the bytes, so the two materializations do not agree on every
parser-accepted identifier. -/
theorem identifier_materialization_counterexample :
    (Id.ArticleId.parseBytes [48, 57, 49, 255, 46, 48, 48, 48, 49]).isOk = true ∧
    idDeserializeStr [48, 57, 49, 255, 46, 48, 48, 48, 49] = .error .utf8 :=
  ⟨by decide, rfl⟩

/-- C9 (amended): for every identifier byte slice the external parser
accepts, the 64-bit materialization equals the parsed identifier's
canonical packed form, the byte-string materialization returns the same
bytes, and — provided the bytes are valid UTF-8 — the string
materialization also returns the same bytes. -/
theorem identifier_dual_materialization_amended :
    ∀ (b : Bytes) (a : Id.ArticleId), Id.ArticleId.parseBytes b = .ok a →
      idDeserializeU64 b = .ok a.serialize ∧
      idDeserializeBytes b = .ok b ∧
      (utf8Valid b = true → idDeserializeStr b = .ok b) := by
  intro b a hp
  refine ⟨?_, rfl, ?_⟩
  · unfold idDeserializeU64
    rw [hp]
  · intro hv
    unfold idDeserializeStr
    rw [if_pos hv]

/-- Witness for the amended C9 at the identifier `hep-th/0101001`,
whose canonical packed form is `720879405588611072`. -/
theorem identifier_materialization_witness :
    Id.ArticleId.parseBytes (strBytes "hep-th/0101001") =
      .ok ⟨720879405588611072⟩ ∧
    (idDeserializeU64 (strBytes "hep-th/0101001") =
        .ok (Id.ArticleId.serialize ⟨720879405588611072⟩) ∧
      idDeserializeBytes (strBytes "hep-th/0101001") =
        .ok (strBytes "hep-th/0101001") ∧
      (utf8Valid (strBytes "hep-th/0101001") = true →
        idDeserializeStr (strBytes "hep-th/0101001") =
          .ok (strBytes "hep-th/0101001"))) :=
  ⟨by rfl, identifier_dual_materialization_amended (strBytes "hep-th/0101001")
    ⟨720879405588611072⟩ (by rfl)⟩

end De

end RsXiv
